import Mathlib

/-!
Verification of the DataLens analysis/visualization computation layer.

The definitions below are a shallow embedding of the Python backend services
(`app/services/analyzer.py`, `app/services/data_processor.py`,
`app/services/visualizer.py`).  Machine floats are modelled by exact rationals
(`ℚ`); the square roots appearing in Pearson correlation are modelled in `ℝ`.
A pandas `DataFrame` is modelled as an ordered association list of named
columns, each a list of cells; `NaN`/`NaT` is the `missing` cell.
-/

namespace DataLens

/-- A cell of a pandas column: a number, a plain string, a string that parses
as a date (the external `pd.to_datetime` parser succeeds on it, yielding the
timestamp `d`), an actual datetime value, or a missing marker (`NaN`/`NaT`). -/
inductive Cell where
  | num (q : ℚ)
  | txt (s : String)
  | dateTxt (d : ℚ)
  | date (d : ℚ)
  | missing
deriving DecidableEq

/-- pandas dtype of a column, as far as the analysis layer inspects it:
`select_dtypes(include=['number'])` and `select_dtypes(include=['datetime64'])`. -/
inductive Dtype where
  | number
  | datetime
  | object
deriving DecidableEq

/-- The dtype of a column: all-numeric (or all-NaN, which pandas stores as
float64) is `number`; otherwise all-datetime is `datetime64`; otherwise
`object`. -/
def colDtype (cells : List Cell) : Dtype :=
  if cells.all (fun c => match c with | .num _ => true | .missing => true | _ => false) then
    .number
  else if cells.all (fun c => match c with | .date _ => true | .missing => true | _ => false) then
    .datetime
  else
    .object

/-- A DataFrame: ordered named columns. -/
abbrev DataFrame := List (String × List Cell)

/-- `df.select_dtypes(include=['number'])`: the numeric columns, in order. -/
def numericCols (df : DataFrame) : List (String × List Cell) :=
  df.filter (fun c => colDtype c.2 = .number)

/-- `series.dropna()` on a numeric column: the non-missing numeric values in
row order. -/
def dropna (cells : List Cell) : List ℚ :=
  cells.filterMap (fun c => match c with | .num q => some q | _ => none)

/-- The values of a numeric series in ascending order (pandas sorts before
computing order statistics). -/
def sortedVals (l : List ℚ) : List ℚ :=
  List.insertionSort (· ≤ ·) l

/-- The arithmetic mean, `series.mean()`. -/
def meanQ (l : List ℚ) : ℚ := l.sum / l.length

/-- The interpolation position of `series.quantile(q)`: `q*(n-1)` over the
`n` sorted values. -/
def qpos (l : List ℚ) (q : ℚ) : ℚ :=
  q * (((sortedVals l).length : ℚ) - 1)

/-- The lower interpolation index of `series.quantile(q)`. -/
def qlo (l : List ℚ) (q : ℚ) : ℕ :=
  ⌊qpos l q⌋.toNat

/-- The upper interpolation index of `series.quantile(q)` (clamped to the last
sorted position). -/
def qhi (l : List ℚ) (q : ℚ) : ℕ :=
  min (qlo l q + 1) ((sortedVals l).length - 1)

/-- `series.quantile(q)` with pandas' default linear interpolation: with the
values sorted ascending, position `q*(n-1)` is split into an integral part
`lo` and fractional part, and the result interpolates between the sorted
values at `lo` and `lo+1`. -/
def quantile (l : List ℚ) (q : ℚ) : ℚ :=
  (sortedVals l).getD (qlo l q) 0
    + (qpos l q - ((qlo l q : ℕ) : ℚ))
      * ((sortedVals l).getD (qhi l q) 0 - (sortedVals l).getD (qlo l q) 0)

/-- `series.min()`: the least value (head of the ascending sort). -/
def colMin (l : List ℚ) : ℚ := (sortedVals l).headD 0

/-- `series.max()`: the greatest value (last of the ascending sort). -/
def colMax (l : List ℚ) : ℚ := (sortedVals l).getLastD 0

/-- `series.mode()[0]`: the smallest value attaining the maximum frequency
(pandas returns the modal values sorted ascending). -/
def modeVal (l : List ℚ) : Option ℚ :=
  let maxFreq := (l.map (fun v => l.count v)).foldr max 0
  (sortedVals l).find? (fun v => l.count v = maxFreq)

/-- Sample variance `series.var()` (denominator `n-1`); `none` models the NaN
pandas returns for fewer than two values. -/
def sampleVar (l : List ℚ) : Option ℚ :=
  if 2 ≤ l.length then
    some (((l.map (fun v => (v - meanQ l) ^ 2)).sum) / ((l.length : ℚ) - 1))
  else none

/-- The per-column statistics record built by
`calculate_descriptive_statistics` (analyzer.py lines 56-74).  The float
fields `std`, `skewness` and `kurtosis` of the Python dict are irrational
(library square roots) and touched by no claim; they are not modelled. -/
structure StatRecord where
  count : ℕ
  mean : ℚ
  median : ℚ
  mode : Option ℚ
  variance : Option ℚ
  min : ℚ
  max : ℚ
  range : ℚ
  q25 : ℚ
  q50 : ℚ
  q75 : ℚ
  iqr : ℚ
  missing_count : ℕ
  missing_percentage : ℚ
deriving DecidableEq

/-- The statistics record for one numeric column; `cells` is the full column
(`numeric_df[col]`), whose length is the row count of the frame. -/
def statRecord (cells : List Cell) : StatRecord :=
  let v := dropna cells
  { count := v.length
    mean := meanQ v
    median := quantile v (1/2)
    mode := modeVal v
    variance := sampleVar v
    min := colMin v
    max := colMax v
    range := colMax v - colMin v
    q25 := quantile v (1/4)
    q50 := quantile v (1/2)
    q75 := quantile v (3/4)
    iqr := quantile v (3/4) - quantile v (1/4)
    missing_count := cells.length - v.length
    missing_percentage := ((cells.length - v.length : ℕ) : ℚ) / (cells.length : ℚ) * 100 }

/-- `calculate_descriptive_statistics` (analyzer.py): error when the frame has
no numeric columns, otherwise one record per numeric column, skipping columns
with zero non-missing values.  (The optional histogram block calls the
external `np.histogram` and is referenced by no claim; it is not modelled.) -/
def calculate_descriptive_statistics (df : DataFrame) :
    Except String (List (String × StatRecord)) :=
  let nd := numericCols df
  if nd.isEmpty then
    .error "No numeric columns found"
  else
    .ok (nd.filterMap (fun c =>
      if (dropna c.2).isEmpty then none else some (c.1, statRecord c.2)))

/-! ### Order facts about `quantile` -/

theorem sortedVals_sorted (l : List ℚ) : (sortedVals l).Sorted (· ≤ ·) :=
  List.sorted_insertionSort _ l

theorem sortedVals_length (l : List ℚ) : (sortedVals l).length = l.length :=
  (List.perm_insertionSort _ l).length_eq

/-- In a sorted list, `getD` is monotone in the index (for in-range indices). -/
theorem sorted_getD_mono {s : List ℚ} (hs : s.Sorted (· ≤ ·)) {i j : ℕ}
    (hij : i ≤ j) (hj : j < s.length) : s.getD i 0 ≤ s.getD j 0 := by
  have hi : i < s.length := lt_of_le_of_lt hij hj
  rcases eq_or_lt_of_le hij with h | h
  · subst h; exact le_refl _
  · have := hs.rel_get_of_lt (a := ⟨i, hi⟩) (b := ⟨j, hj⟩) (by simpa using h)
    simpa [List.getD_eq_getElem?_getD, List.getElem?_eq_getElem, hi, hj,
      List.get_eq_getElem] using this

/-- Any in-range `getD` of a sorted list is at least the head. -/
theorem sorted_head_le {s : List ℚ} (hs : s.Sorted (· ≤ ·)) {i : ℕ}
    (hi : i < s.length) : s.getD 0 0 ≤ s.getD i 0 :=
  sorted_getD_mono hs (Nat.zero_le i) hi

theorem headD_eq_getD (l : List ℚ) (d : ℚ) : l.headD d = l.getD 0 d := by
  cases l <;> rfl

theorem getLastD_eq_getD (l : List ℚ) (d : ℚ) :
    l.getLastD d = l.getD (l.length - 1) d := by
  cases l with
  | nil => rfl
  | cons a t =>
    rw [List.getLastD_eq_getLast?, List.getLast?_eq_getElem?,
      List.getD_eq_getElem?_getD]

theorem qpos_nonneg {l : List ℚ} (hl : l ≠ []) {q : ℚ} (hq0 : 0 ≤ q) :
    0 ≤ qpos l q := by
  have hn : 1 ≤ (sortedVals l).length := by
    rw [sortedVals_length]; exact List.length_pos.mpr hl
  have h1 : (1 : ℚ) ≤ ((sortedVals l).length : ℚ) := by exact_mod_cast hn
  unfold qpos
  nlinarith

theorem qlo_cast {l : List ℚ} (hl : l ≠ []) {q : ℚ} (hq0 : 0 ≤ q) :
    ((qlo l q : ℕ) : ℚ) = (⌊qpos l q⌋ : ℚ) := by
  unfold qlo
  exact_mod_cast Int.toNat_of_nonneg (Int.floor_nonneg.mpr (qpos_nonneg hl hq0))

theorem qlo_le {l : List ℚ} (hl : l ≠ []) {q : ℚ} (hq0 : 0 ≤ q) (hq1 : q ≤ 1) :
    qlo l q ≤ (sortedVals l).length - 1 := by
  have hn : 1 ≤ (sortedVals l).length := by
    rw [sortedVals_length]; exact List.length_pos.mpr hl
  have h1 : (1 : ℚ) ≤ ((sortedVals l).length : ℚ) := by exact_mod_cast hn
  have hcast : (((sortedVals l).length - 1 : ℕ) : ℚ)
      = ((sortedVals l).length : ℚ) - 1 := by
    rw [Nat.cast_sub hn]; norm_num
  have hle : qpos l q ≤ (((sortedVals l).length - 1 : ℕ) : ℚ) := by
    rw [hcast]; unfold qpos; nlinarith
  have hfloor : ⌊qpos l q⌋ ≤ (((sortedVals l).length - 1 : ℕ) : ℤ) := by
    rw [← Int.floor_natCast (α := ℚ) ((sortedVals l).length - 1)]
    exact Int.floor_le_floor hle
  unfold qlo
  omega

/-- `quantile` at `q = 0` is the least value. -/
theorem quantile_zero (l : List ℚ) : quantile l 0 = colMin l := by
  unfold quantile colMin qlo qpos
  rw [headD_eq_getD]
  norm_num

/-- `quantile` at `q = 1` is the greatest value. -/
theorem quantile_one {l : List ℚ} (hl : l ≠ []) : quantile l 1 = colMax l := by
  have hn : 1 ≤ (sortedVals l).length := by
    rw [sortedVals_length]; exact List.length_pos.mpr hl
  have hcast : qpos l 1 = (((sortedVals l).length - 1 : ℕ) : ℚ) := by
    unfold qpos; push_cast [Nat.cast_sub hn]; ring
  have hlo : qlo l 1 = (sortedVals l).length - 1 := by
    unfold qlo
    rw [hcast, Int.floor_natCast, Int.toNat_natCast]
  unfold quantile colMax
  rw [getLastD_eq_getD, hcast, hlo]
  simp

/-- `quantile` is monotone in `q` on `[0,1]` (for a nonempty value list):
linear interpolation between adjacent entries of an ascending sort. -/
theorem quantile_le_quantile {l : List ℚ} (hl : l ≠ []) {q1 q2 : ℚ}
    (hq0 : 0 ≤ q1) (h12 : q1 ≤ q2) (hq2 : q2 ≤ 1) :
    quantile l q1 ≤ quantile l q2 := by
  have hq1 : q1 ≤ 1 := le_trans h12 hq2
  have hq20 : 0 ≤ q2 := le_trans hq0 h12
  have hsort : (sortedVals l).Sorted (· ≤ ·) := sortedVals_sorted l
  have hn : 1 ≤ (sortedVals l).length := by
    rw [sortedVals_length]; exact List.length_pos.mpr hl
  have hn1 : (0 : ℚ) ≤ ((sortedVals l).length : ℚ) - 1 := by
    have h1 : (1 : ℚ) ≤ ((sortedVals l).length : ℚ) := by exact_mod_cast hn
    linarith
  have hp12 : qpos l q1 ≤ qpos l q2 := by
    unfold qpos; exact mul_le_mul_of_nonneg_right h12 hn1
  have hc1 : ((qlo l q1 : ℕ) : ℚ) = (⌊qpos l q1⌋ : ℚ) := qlo_cast hl hq0
  have hc2 : ((qlo l q2 : ℕ) : ℚ) = (⌊qpos l q2⌋ : ℚ) := qlo_cast hl hq20
  have hf1 : ((qlo l q1 : ℕ) : ℚ) ≤ qpos l q1 := by
    rw [hc1]; exact Int.floor_le _
  have hf2 : ((qlo l q2 : ℕ) : ℚ) ≤ qpos l q2 := by
    rw [hc2]; exact Int.floor_le _
  have hf1' : qpos l q1 < ((qlo l q1 : ℕ) : ℚ) + 1 := by
    rw [hc1]; exact Int.lt_floor_add_one _
  have hf2' : qpos l q2 < ((qlo l q2 : ℕ) : ℚ) + 1 := by
    rw [hc2]; exact Int.lt_floor_add_one _
  have hlo1n : qlo l q1 ≤ (sortedVals l).length - 1 := qlo_le hl hq0 hq1
  have hlo2n : qlo l q2 ≤ (sortedVals l).length - 1 := qlo_le hl hq20 hq2
  have hlo12 : qlo l q1 ≤ qlo l q2 := by
    have h := Int.floor_le_floor hp12
    unfold qlo
    omega
  have hlo1lt : qlo l q1 < (sortedVals l).length := by omega
  have hlo2lt : qlo l q2 < (sortedVals l).length := by omega
  have hhi1lt : qhi l q1 < (sortedVals l).length := by unfold qhi; omega
  have hhi2lt : qhi l q2 < (sortedVals l).length := by unfold qhi; omega
  have hlohi1 : qlo l q1 ≤ qhi l q1 := by unfold qhi; omega
  have hlohi2 : qlo l q2 ≤ qhi l q2 := by unfold qhi; omega
  have hglohi1 : (sortedVals l).getD (qlo l q1) 0 ≤ (sortedVals l).getD (qhi l q1) 0 :=
    sorted_getD_mono hsort hlohi1 hhi1lt
  have hglohi2 : (sortedVals l).getD (qlo l q2) 0 ≤ (sortedVals l).getD (qhi l q2) 0 :=
    sorted_getD_mono hsort hlohi2 hhi2lt
  unfold quantile
  rcases Nat.lt_or_ge (qlo l q1) (qlo l q2) with hcase | hcase
  · -- qlo 1 < qlo 2 : chain through s[qhi 1] ≤ s[qlo 2]
    have hhi1lo2 : qhi l q1 ≤ qlo l q2 := by unfold qhi; omega
    have hmid : (sortedVals l).getD (qhi l q1) 0 ≤ (sortedVals l).getD (qlo l q2) 0 :=
      sorted_getD_mono hsort hhi1lo2 hlo2lt
    have hfr1 : qpos l q1 - ((qlo l q1 : ℕ) : ℚ) ≤ 1 := by linarith
    have hfr2' : (0 : ℚ) ≤ qpos l q2 - ((qlo l q2 : ℕ) : ℚ) := by linarith
    have key1 : (sortedVals l).getD (qlo l q1) 0
        + (qpos l q1 - ((qlo l q1 : ℕ) : ℚ))
          * ((sortedVals l).getD (qhi l q1) 0 - (sortedVals l).getD (qlo l q1) 0)
        ≤ (sortedVals l).getD (qhi l q1) 0 := by
      nlinarith [mul_nonneg (by linarith : (0:ℚ) ≤ 1 - (qpos l q1 - ((qlo l q1 : ℕ) : ℚ)))
        (sub_nonneg.mpr hglohi1)]
    have key2 : (sortedVals l).getD (qlo l q2) 0
        ≤ (sortedVals l).getD (qlo l q2) 0
          + (qpos l q2 - ((qlo l q2 : ℕ) : ℚ))
            * ((sortedVals l).getD (qhi l q2) 0 - (sortedVals l).getD (qlo l q2) 0) := by
      nlinarith [mul_nonneg hfr2' (sub_nonneg.mpr hglohi2)]
    linarith
  · -- qlo 1 = qlo 2 : same segment, compare fractional parts
    have heq : qlo l q1 = qlo l q2 := le_antisymm hlo12 hcase
    have hhi : qhi l q1 = qhi l q2 := by unfold qhi; rw [heq]
    rw [heq, hhi]
    nlinarith [sub_nonneg.mpr hglohi2, hp12, hf1, hf2, heq]

/-- Inverting `calculate_descriptive_statistics`: every record in a successful
result is the statistics record of some column with at least one non-missing
value. -/
theorem stats_record_inversion {df : DataFrame} {recs : List (String × StatRecord)}
    (hok : calculate_descriptive_statistics df = .ok recs)
    {col : String} {rec : StatRecord} (hmem : (col, rec) ∈ recs) :
    ∃ cells, dropna cells ≠ [] ∧ rec = statRecord cells := by
  unfold calculate_descriptive_statistics at hok
  by_cases h : (numericCols df).isEmpty
  · simp [h] at hok
  · simp only [h, Bool.false_eq_true, if_false, Except.ok.injEq] at hok
    subst hok
    rcases List.mem_filterMap.mp hmem with ⟨c, _, hc⟩
    by_cases he : (dropna c.2).isEmpty
    · simp [he] at hc
    · simp only [he, Bool.false_eq_true, if_false, Option.some.injEq, Prod.mk.injEq] at hc
      exact ⟨c.2, fun hnil => he (by rw [hnil]; rfl), hc.2.symm⟩

/-- C4: for every table and every numeric column with at least one non-missing
value, the record produced by the Descriptive Statistics Engine satisfies
`min ≤ q25 ≤ q50 ≤ q75 ≤ max` and `iqr = q75 - q25 ≥ 0`. -/
theorem stats_quartile_order {df : DataFrame} {recs : List (String × StatRecord)}
    (hok : calculate_descriptive_statistics df = .ok recs)
    {col : String} {rec : StatRecord} (hmem : (col, rec) ∈ recs) :
    rec.min ≤ rec.q25 ∧ rec.q25 ≤ rec.q50 ∧ rec.q50 ≤ rec.q75 ∧ rec.q75 ≤ rec.max
      ∧ rec.iqr = rec.q75 - rec.q25 ∧ 0 ≤ rec.iqr := by
  rcases stats_record_inversion hok hmem with ⟨cells, hne, hrec⟩
  subst hrec
  have h1 : colMin (dropna cells) ≤ quantile (dropna cells) (1/4) := by
    rw [← quantile_zero]
    exact quantile_le_quantile hne (by norm_num) (by norm_num) (by norm_num)
  have h2 : quantile (dropna cells) (1/4) ≤ quantile (dropna cells) (1/2) :=
    quantile_le_quantile hne (by norm_num) (by norm_num) (by norm_num)
  have h3 : quantile (dropna cells) (1/2) ≤ quantile (dropna cells) (3/4) :=
    quantile_le_quantile hne (by norm_num) (by norm_num) (by norm_num)
  have h4 : quantile (dropna cells) (3/4) ≤ colMax (dropna cells) := by
    rw [← quantile_one hne]
    exact quantile_le_quantile hne (by norm_num) (by norm_num) (by norm_num)
  refine ⟨h1, h2, h3, h4, rfl, ?_⟩
  show (0 : ℚ) ≤ quantile (dropna cells) (3/4) - quantile (dropna cells) (1/4)
  linarith

/-- C4 witness: the quartile ordering evaluated on the spec's scenario column
`x = [1,2,3,4,5]`. -/
theorem stats_quartile_order_witness :
    calculate_descriptive_statistics [("x", [.num 1, .num 2, .num 3, .num 4, .num 5])]
        = .ok [("x", statRecord [.num 1, .num 2, .num 3, .num 4, .num 5])]
      ∧ ((statRecord [.num 1, .num 2, .num 3, .num 4, .num 5]).min
          ≤ (statRecord [.num 1, .num 2, .num 3, .num 4, .num 5]).q25
        ∧ (statRecord [.num 1, .num 2, .num 3, .num 4, .num 5]).q25
          ≤ (statRecord [.num 1, .num 2, .num 3, .num 4, .num 5]).q50
        ∧ (statRecord [.num 1, .num 2, .num 3, .num 4, .num 5]).q50
          ≤ (statRecord [.num 1, .num 2, .num 3, .num 4, .num 5]).q75
        ∧ (statRecord [.num 1, .num 2, .num 3, .num 4, .num 5]).q75
          ≤ (statRecord [.num 1, .num 2, .num 3, .num 4, .num 5]).max
        ∧ (statRecord [.num 1, .num 2, .num 3, .num 4, .num 5]).iqr
          = (statRecord [.num 1, .num 2, .num 3, .num 4, .num 5]).q75
            - (statRecord [.num 1, .num 2, .num 3, .num 4, .num 5]).q25
        ∧ 0 ≤ (statRecord [.num 1, .num 2, .num 3, .num 4, .num 5]).iqr) :=
  ⟨rfl,
    @stats_quartile_order [("x", [.num 1, .num 2, .num 3, .num 4, .num 5])]
      [("x", statRecord [.num 1, .num 2, .num 3, .num 4, .num 5])] rfl
      "x" (statRecord [.num 1, .num 2, .num 3, .num 4, .num 5]) (List.Mem.head _)⟩

/-! ### Tabular Loader: `read_dataset` (data_processor.py lines 21-79) -/

/-- Outcome of the underlying pandas read call (`pd.read_csv`,
`pd.read_excel`, `pd.read_json` — external parsers): success, the two pandas
exceptions the code handles specifically, or any other exception carrying its
string rendering. -/
inductive ReadOutcome where
  | success
  | emptyData
  | parserError
  | otherErr (msg : String)
deriving DecidableEq

/-- A Python exception as observed by `read_dataset`'s `except` chain. -/
inductive PyExc where
  | httpExc (status : ℕ) (detail : String)
  | pandasEmptyData
  | pandasParserErr
  | generic (msg : String)
deriving DecidableEq

/-- `str(e)`: `starlette.HTTPException.__str__` renders as
`"{status_code}: {detail}"`; the pandas exception messages are opaque. -/
def pyExcStr : PyExc → String
  | .httpExc st d => toString st ++ ": " ++ d
  | .pandasEmptyData => "No columns to parse from file"
  | .pandasParserErr => "Error tokenizing data"
  | .generic m => m

/-- An HTTP error response, `HTTPException(status_code, detail)`. -/
structure HttpError where
  status : ℕ
  detail : String
deriving DecidableEq

/-- The `try` body of `read_dataset`: dispatch on the declared file type; any
other declared format raises a 400 `HTTPException` — inside the `try`. -/
def readBody (file_type : String) (outcome : ReadOutcome) : Except PyExc Unit :=
  if file_type = "csv" ∨ file_type = "xlsx" ∨ file_type = "xls" ∨ file_type = "json" then
    match outcome with
    | .success => .ok ()
    | .emptyData => .error .pandasEmptyData
    | .parserError => .error .pandasParserErr
    | .otherErr m => .error (.generic m)
  else
    .error (.httpExc 400 ("Unsupported file type: " ++ file_type))

/-- `read_dataset` (data_processor.py): the `except` chain.
`pd.errors.EmptyDataError` and `pd.errors.ParserError` map to specific 400
responses; the final `except Exception` maps anything else — including the
`HTTPException` raised for an unsupported declared format, since
`HTTPException` is an `Exception` — to a 500 `"Error reading file: ..."`
response. -/
def read_dataset (file_type : String) (outcome : ReadOutcome) : Except HttpError Unit :=
  match readBody file_type outcome with
  | .ok () => .ok ()
  | .error .pandasEmptyData => .error ⟨400, "File is empty"⟩
  | .error .pandasParserErr => .error ⟨400, "File format is invalid or corrupted"⟩
  | .error e => .error ⟨500, "Error reading file: " ++ pyExcStr e⟩

/-- C1 (code bug): an unsupported declared format ("txt") does not surface as
a distinguishable unsupported-format error: the 400 `HTTPException` raised in
the `try` body is swallowed by the generic `except Exception` handler and
re-raised as a 500 whose detail carries the generic `"Error reading file:"`
prefix — byte-for-byte identical to a genuine generic read failure, while the
empty-input and malformed-input failures remain distinct 400 responses. -/
theorem read_dataset_unsupported_collapsed :
    read_dataset "txt" .success
        = .error ⟨500, "Error reading file: 400: Unsupported file type: txt"⟩
      ∧ read_dataset "csv" (.otherErr "400: Unsupported file type: txt")
        = read_dataset "txt" .success
      ∧ read_dataset "csv" .emptyData = .error ⟨400, "File is empty"⟩
      ∧ read_dataset "csv" .parserError
        = .error ⟨400, "File format is invalid or corrupted"⟩ :=
  ⟨rfl, rfl, rfl, rfl⟩

/-! ### Outlier Detector: `detect_outliers` (analyzer.py lines 154-220) -/

/-- Population variance (`ddof=0`), the normalization used by
`scipy.stats.zscore`. -/
def popVar (l : List ℚ) : ℚ :=
  ((l.map (fun v => (v - meanQ l) ^ 2)).sum) / l.length

/-- The z-score comparison `|z| > t` for one value, decided exactly over `ℚ`:
with population standard deviation `s = sqrt(popVar)` the float test
`|x - mean|/s > t` holds iff `(x - mean)^2 > t^2 * popVar` when `t ≥ 0`, and
always holds when `t < 0`.  When the variance is zero `scipy.stats.zscore`
divides by zero and yields NaN z-scores, and `NaN > t` is false, so no value
is flagged. -/
def zscoreFlag (m v0 t x : ℚ) : Bool :=
  if v0 = 0 then false
  else if t < 0 then true
  else decide ((x - m) ^ 2 > t ^ 2 * v0)

/-- `series.min()` of a possibly-empty selection, `None` when empty. -/
def listMin (l : List ℚ) : Option ℚ := if l = [] then none else some (colMin l)

/-- `series.max()` of a possibly-empty selection, `None` when empty. -/
def listMax (l : List ℚ) : Option ℚ := if l = [] then none else some (colMax l)

/-- The per-column record of `detect_outliers` (analyzer.py lines 206-218);
the IQR bounds are only attached for the `iqr` method. -/
structure OutlierRecord where
  count : ℕ
  percentage : ℚ
  values : List ℚ
  min_outlier : Option ℚ
  max_outlier : Option ℚ
  method : String
  threshold : ℚ
  lower_bound : Option ℚ
  upper_bound : Option ℚ
deriving DecidableEq

/-- One column's entry of `detect_outliers`: `none` when the column has no
non-missing values (`continue`) or — reproducing the source's `else:
continue` — when the method string is unrecognized. -/
def outlierRecordFor (method : String) (threshold : ℚ) (cells : List Cell) :
    Option OutlierRecord :=
  let v := dropna cells
  if v.isEmpty then none
  else if method = "iqr" then
    let q1 := quantile v (1/4)
    let q3 := quantile v (3/4)
    let iqrv := q3 - q1
    let lb := q1 - threshold * iqrv
    let ub := q3 + threshold * iqrv
    let outliers := v.filter (fun x => x < lb ∨ x > ub)
    some { count := outliers.length
           percentage := (outliers.length : ℚ) / (v.length : ℚ) * 100
           values := outliers.take 100
           min_outlier := listMin outliers
           max_outlier := listMax outliers
           method := method
           threshold := threshold
           lower_bound := some lb
           upper_bound := some ub }
  else if method = "zscore" then
    let outliers := v.filter (fun x => zscoreFlag (meanQ v) (popVar v) threshold x)
    some { count := outliers.length
           percentage := (outliers.length : ℚ) / (v.length : ℚ) * 100
           values := outliers.take 100
           min_outlier := listMin outliers
           max_outlier := listMax outliers
           method := method
           threshold := threshold
           lower_bound := none
           upper_bound := none }
  else none

/-- `detect_outliers` (analyzer.py): error when the frame has no numeric
columns, otherwise the per-column records in column order. -/
def detect_outliers (df : DataFrame) (method : String) (threshold : ℚ) :
    Except String (List (String × OutlierRecord)) :=
  if (numericCols df).isEmpty then .error "No numeric columns found"
  else .ok ((numericCols df).filterMap (fun c =>
    (outlierRecordFor method threshold c.2).map (fun r => (c.1, r))))

/-- C3 (code bug): for any table with at least one numeric column, an unknown
method string does not fail with a request-level unsupported-method error: the
`else: continue` silently skips every column and the call returns an empty
per-column mapping as a success. -/
theorem detect_outliers_unknown_method_silent (df : DataFrame) (method : String)
    (t : ℚ) (hnum : numericCols df ≠ []) (h1 : method ≠ "iqr")
    (h2 : method ≠ "zscore") :
    detect_outliers df method t = .ok [] := by
  unfold detect_outliers
  rw [if_neg (by simpa [List.isEmpty_iff] using hnum)]
  congr 1
  rw [List.filterMap_eq_nil_iff]
  intro c _
  unfold outlierRecordFor
  by_cases he : (dropna c.2).isEmpty <;> simp [he, h1, h2]

/-- C3 witness: a table with one numeric column and the unknown method
`"median"` silently yields an empty success. -/
theorem detect_outliers_unknown_method_silent_witness :
    numericCols [("x", [Cell.num 1, Cell.num 2, Cell.num 3])] ≠ []
      ∧ "median" ≠ "iqr" ∧ "median" ≠ "zscore"
      ∧ detect_outliers [("x", [Cell.num 1, Cell.num 2, Cell.num 3])] "median" (3/2)
        = .ok [] :=
  ⟨by decide, by decide, by decide,
    detect_outliers_unknown_method_silent _ _ _ (by decide) (by decide) (by decide)⟩

theorem meanQ_const {l : List ℚ} {c : ℚ} (hconst : ∀ x ∈ l, x = c)
    (hne : l ≠ []) : meanQ l = c := by
  have hsum : l.sum = l.length • c := List.sum_eq_card_nsmul l c hconst
  have hn : (l.length : ℚ) ≠ 0 := by
    simpa using List.length_pos.mpr hne |>.ne'
  unfold meanQ
  rw [hsum, nsmul_eq_mul, mul_div_cancel_left₀ _ hn]

theorem popVar_const {l : List ℚ} {c : ℚ} (hconst : ∀ x ∈ l, x = c)
    (hne : l ≠ []) : popVar l = 0 := by
  unfold popVar
  have hz : (l.map (fun v => (v - meanQ l) ^ 2)).sum = 0 := by
    apply List.sum_eq_zero
    intro x hx
    rcases List.mem_map.mp hx with ⟨v, hv, rfl⟩
    rw [hconst v hv, meanQ_const hconst hne]
    ring
  rw [hz, zero_div]

/-- C10: for a numeric column whose non-missing values are all equal (zero
population standard deviation) and non-empty, `detect_outliers` with
`zscore` returns a record with count 0, percentage 0, empty flagged list and
null min/max, raising no error. -/
theorem zscore_constant_column_safe (df : DataFrame) (t : ℚ) (col : String)
    (cells : List Cell) (c : ℚ) (hmem : (col, cells) ∈ numericCols df)
    (hconst : ∀ x ∈ dropna cells, x = c) (hne : dropna cells ≠ []) :
    ∃ recs, detect_outliers df "zscore" t = .ok recs
      ∧ (col, { count := 0, percentage := 0, values := [], min_outlier := none,
                max_outlier := none, method := "zscore", threshold := t,
                lower_bound := none, upper_bound := none }) ∈ recs := by
  have hnumne : numericCols df ≠ [] := by
    intro h; rw [h] at hmem; exact List.not_mem_nil _ hmem
  refine ⟨_, by
    unfold detect_outliers
    rw [if_neg (by simpa [List.isEmpty_iff] using hnumne)], ?_⟩
  apply List.mem_filterMap.mpr
  refine ⟨(col, cells), hmem, ?_⟩
  have hrec : outlierRecordFor "zscore" t cells
      = some { count := 0, percentage := 0, values := [], min_outlier := none,
               max_outlier := none, method := "zscore", threshold := t,
               lower_bound := none, upper_bound := none } := by
    unfold outlierRecordFor
    rw [if_neg (by simpa [List.isEmpty_iff] using hne)]
    rw [if_neg (by decide), if_pos rfl]
    have hfilter : (dropna cells).filter
        (fun x => zscoreFlag (meanQ (dropna cells)) (popVar (dropna cells)) t x)
        = [] := by
      rw [List.filter_eq_nil_iff]
      intro x _
      rw [popVar_const hconst hne]
      simp [zscoreFlag]
    rw [hfilter]
    simp [listMin, listMax]
  rw [hrec]
  rfl

/-- C10 witness: a constant column `[5,5,5]` with the default z-score
threshold 3. -/
theorem zscore_constant_column_safe_witness :
    ∃ recs, detect_outliers [("x", [Cell.num 5, Cell.num 5, Cell.num 5])] "zscore" 3
        = .ok recs
      ∧ ("x", { count := 0, percentage := 0, values := [], min_outlier := none,
                max_outlier := none, method := "zscore", threshold := (3:ℚ),
                lower_bound := none, upper_bound := none : OutlierRecord }) ∈ recs :=
  zscore_constant_column_safe [("x", [Cell.num 5, Cell.num 5, Cell.num 5])] 3 "x"
    [Cell.num 5, Cell.num 5, Cell.num 5] 5 (by decide) (by decide) (by decide)

/-! ### Pie chart preparer: `prepare_pie_chart_data` (visualizer.py lines 123-174) -/

/-- The distinct non-missing values of a grouping column, in first-occurrence
order (`groupby` and `value_counts` both drop NaN keys). -/
def groupKeys (cells : List Cell) : List Cell :=
  (cells.filter (fun c => c ≠ Cell.missing)).dedup

/-- Numeric contribution of one value cell to a pandas `sum()` aggregation:
missing values are skipped, i.e. contribute 0.  (The pie preparer's value
column is a numeric column of the data model.) -/
def cellVal : Cell → ℚ
  | .num q => q
  | _ => 0

/-- `df[category].value_counts()` before its descending sort: each distinct
non-missing key with its occurrence count. -/
def groupCounts (cells : List Cell) : List (Cell × ℚ) :=
  (groupKeys cells).map (fun k => (k, ((cells.filter (fun c => c = k)).length : ℚ)))

/-- `df.groupby(category)[value].sum()` before its descending sort: each
distinct non-missing key with the sum of the value cells in its rows. -/
def groupSums (keyCells valCells : List Cell) : List (Cell × ℚ) :=
  (groupKeys keyCells).map (fun k =>
    (k, (((keyCells.zip valCells).filter (fun p => p.1 = k)).map
      (fun p => cellVal p.2)).sum))

/-- Sort key/value pairs descending by value (`value_counts()` is sorted
descending; `sort_values(ascending=False)` for the sum branch). -/
def sortDescByVal (l : List (Cell × ℚ)) : List (Cell × ℚ) :=
  List.insertionSort (fun a b => b.2 ≤ a.2) l

/-- The pie payload (visualizer.py lines 168-174). -/
structure PiePayload where
  labels : List Cell
  values : List ℚ
  category_column : String
  value_column : String
deriving DecidableEq

/-- Truncation to the top `top_n` groups with the `"Other"` bucket: the bucket
is appended exactly when groups were excluded (`len(grouped) > top_n`), and
its value is the sum of all excluded groups. -/
def pieTruncate (category_column value_column : String)
    (sorted : List (Cell × ℚ)) (top_n : ℕ) : PiePayload :=
  let top := sorted.take top_n
  if top_n < sorted.length then
    { labels := top.map Prod.fst ++ [Cell.txt "Other"]
      values := top.map Prod.snd ++ [((sorted.drop top_n).map Prod.snd).sum]
      category_column := category_column
      value_column := value_column }
  else
    { labels := top.map Prod.fst
      values := top.map Prod.snd
      category_column := category_column
      value_column := value_column }

/-- `prepare_pie_chart_data` (visualizer.py): validates the requested
column names, groups (counting occurrences when no value column is given,
summing the value column otherwise), sorts descending, keeps the top `top_n`
groups and collapses the rest into `"Other"`. -/
def prepare_pie_chart_data (df : DataFrame) (category_column : String)
    (value_column : Option String) (top_n : ℕ) : Except String PiePayload :=
  match df.lookup category_column with
  | none => .error ("Column " ++ category_column ++ " not found")
  | some catCells =>
    match value_column with
    | none =>
      .ok (pieTruncate category_column "count"
        (sortDescByVal (groupCounts catCells)) top_n)
    | some v =>
      match df.lookup v with
      | none => .error ("Column " ++ v ++ " not found")
      | some valCells =>
        .ok (pieTruncate category_column v
          (sortDescByVal (groupSums catCells valCells)) top_n)

/-- Sum preservation for the truncation step: the returned values (with the
`"Other"` bucket when present) sum to the whole sorted aggregation. -/
theorem pieTruncate_sum (cc vc : String) (sorted : List (Cell × ℚ)) (n : ℕ) :
    (pieTruncate cc vc sorted n).values.sum = (sorted.map Prod.snd).sum := by
  unfold pieTruncate
  by_cases h : n < sorted.length
  · rw [if_pos h]
    simp only [List.sum_append, List.sum_cons, List.sum_nil, add_zero,
      List.map_take, List.map_drop]
    exact List.sum_take_add_sum_drop _ n
  · rw [if_neg h]
    simp only [List.map_take]
    rw [List.take_of_length_le (by simpa using Nat.le_of_not_lt h)]

/-- The truncation step against the un-truncated aggregation: sum preserved,
and the `"Other"` bucket appended exactly when groups are excluded. -/
theorem pieTruncate_spec (cc vc : String) (grouped : List (Cell × ℚ)) (n : ℕ) :
    (pieTruncate cc vc (sortDescByVal grouped) n).values.sum
        = (grouped.map Prod.snd).sum
      ∧ (if n < grouped.length then
          (pieTruncate cc vc (sortDescByVal grouped) n).labels
              = ((sortDescByVal grouped).take n).map Prod.fst ++ [Cell.txt "Other"]
            ∧ (pieTruncate cc vc (sortDescByVal grouped) n).values
              = ((sortDescByVal grouped).take n).map Prod.snd
                ++ [(((sortDescByVal grouped).drop n).map Prod.snd).sum]
        else
          (pieTruncate cc vc (sortDescByVal grouped) n).labels
              = (sortDescByVal grouped).map Prod.fst
            ∧ (pieTruncate cc vc (sortDescByVal grouped) n).values
              = (sortDescByVal grouped).map Prod.snd) := by
  have hperm : (sortDescByVal grouped).Perm grouped :=
    List.perm_insertionSort _ grouped
  have hlen : (sortDescByVal grouped).length = grouped.length := hperm.length_eq
  constructor
  · rw [pieTruncate_sum]
    exact (hperm.map Prod.snd).sum_eq
  · by_cases h : n < grouped.length
    · rw [if_pos h]
      unfold pieTruncate
      rw [if_pos (by omega)]
      exact ⟨rfl, rfl⟩
    · rw [if_neg h]
      unfold pieTruncate
      rw [if_neg (by omega)]
      refine ⟨?_, ?_⟩ <;>
        rw [List.take_of_length_le (by omega)]

/-- C8: for every table, category column, optional (numeric) value column and
`top_n ≥ 1`, the pie preparer's returned values — `"Other"` bucket included
when present — sum to the full un-truncated grouped aggregation, and the
`"Other"` bucket is appended exactly when there are excluded groups. -/
theorem pie_sum_and_other_bucket (df : DataFrame) (cat : String)
    (vcol : Option String) (top_n : ℕ) (payload : PiePayload)
    (hn : 1 ≤ top_n)
    (hvnum : ∀ v cells, vcol = some v → df.lookup v = some cells →
      colDtype cells = Dtype.number)
    (hok : prepare_pie_chart_data df cat vcol top_n = .ok payload) :
    ∃ catCells grouped, df.lookup cat = some catCells
      ∧ ((vcol = none ∧ grouped = groupCounts catCells)
          ∨ (∃ v valCells, vcol = some v ∧ df.lookup v = some valCells
              ∧ grouped = groupSums catCells valCells))
      ∧ payload.values.sum = (grouped.map Prod.snd).sum
      ∧ (if top_n < grouped.length then
          payload.labels
              = ((sortDescByVal grouped).take top_n).map Prod.fst ++ [Cell.txt "Other"]
            ∧ payload.values
              = ((sortDescByVal grouped).take top_n).map Prod.snd
                ++ [(((sortDescByVal grouped).drop top_n).map Prod.snd).sum]
        else
          payload.labels = (sortDescByVal grouped).map Prod.fst
            ∧ payload.values = (sortDescByVal grouped).map Prod.snd) := by
  cases hcat : df.lookup cat with
  | none =>
    unfold prepare_pie_chart_data at hok
    simp [hcat] at hok
  | some catCells =>
    cases vcol with
    | none =>
      unfold prepare_pie_chart_data at hok
      simp only [hcat, Except.ok.injEq] at hok
      subst hok
      exact ⟨catCells, groupCounts catCells, rfl, Or.inl ⟨rfl, rfl⟩,
        (pieTruncate_spec cat "count" (groupCounts catCells) top_n).1,
        (pieTruncate_spec cat "count" (groupCounts catCells) top_n).2⟩
    | some v =>
      cases hval : df.lookup v with
      | none =>
        unfold prepare_pie_chart_data at hok
        simp [hcat, hval] at hok
      | some valCells =>
        unfold prepare_pie_chart_data at hok
        simp only [hcat, hval, Except.ok.injEq] at hok
        subst hok
        exact ⟨catCells, groupSums catCells valCells, rfl,
          Or.inr ⟨v, valCells, rfl, hval, rfl⟩,
          (pieTruncate_spec cat v (groupSums catCells valCells) top_n).1,
          (pieTruncate_spec cat v (groupSums catCells valCells) top_n).2⟩

/-- C8 witness: counting pie over a category column `[a,b,a,c]` with
`top_n = 2` (one excluded group, so an `"Other"` bucket appears). -/
theorem pie_sum_and_other_bucket_witness :
    ∃ payload, prepare_pie_chart_data
        [("cat", [Cell.txt "a", Cell.txt "b", Cell.txt "a", Cell.txt "c"])]
        "cat" none 2 = .ok payload
      ∧ ∃ catCells grouped,
        ([("cat", [Cell.txt "a", Cell.txt "b", Cell.txt "a", Cell.txt "c"])] :
            DataFrame).lookup "cat" = some catCells
        ∧ ((none = (none : Option String) ∧ grouped = groupCounts catCells)
            ∨ (∃ v valCells, (none : Option String) = some v
                ∧ ([("cat", [Cell.txt "a", Cell.txt "b", Cell.txt "a",
                    Cell.txt "c"])] : DataFrame).lookup v = some valCells
                ∧ grouped = groupSums catCells valCells))
        ∧ payload.values.sum = (grouped.map Prod.snd).sum
        ∧ (if 2 < grouped.length then
            payload.labels
                = ((sortDescByVal grouped).take 2).map Prod.fst ++ [Cell.txt "Other"]
              ∧ payload.values
                = ((sortDescByVal grouped).take 2).map Prod.snd
                  ++ [(((sortDescByVal grouped).drop 2).map Prod.snd).sum]
          else
            payload.labels = (sortDescByVal grouped).map Prod.fst
              ∧ payload.values = (sortDescByVal grouped).map Prod.snd) :=
  ⟨_, rfl, pie_sum_and_other_bucket
    [("cat", [Cell.txt "a", Cell.txt "b", Cell.txt "a", Cell.txt "c"])]
    "cat" none 2 _ (by decide) (fun v cells hv _ => nomatch hv) rfl⟩

/-! ### Trend Analyzer: `analyze_trends` (analyzer.py lines 223-321) -/

/-- `pd.to_datetime` on one cell: numbers convert (epoch semantics, order
preserving), date-parseable strings convert to their timestamp, datetimes
stay, `NaN` becomes `NaT`; a non-date string makes the conversion raise. -/
def toDatetimeCell : Cell → Option Cell
  | .num q => some (.date q)
  | .dateTxt d => some (.date d)
  | .date d => some (.date d)
  | .missing => some .missing
  | .txt _ => none

/-- `pd.to_datetime(df[col])`: succeeds iff every cell converts. -/
def toDatetimeCol (cells : List Cell) : Option (List Cell) :=
  cells.mapM toDatetimeCell

/-- The date-column auto-detection loop (analyzer.py lines 250-256): walk the
columns in order; the first column `pd.to_datetime` accepts is assigned back
into the caller's frame (`df[col] = pd.to_datetime(df[col])`) and chosen; on
failure the `except: continue` moves on. -/
def convertLoop : DataFrame → Option String × DataFrame
  | [] => (none, [])
  | c :: rest =>
    match toDatetimeCol c.2 with
    | some cells' => (some c.1, (c.1, cells') :: rest)
    | none =>
      let r := convertLoop rest
      (r.1, c :: r.2)

/-- Tier of the `sort_values` key: `NaT`/`NaN` is placed last. -/
def cellKeyRank : Cell → ℕ
  | .missing => 1
  | _ => 0

/-- Numeric component of the `sort_values` key. -/
def cellKeyNum : Cell → ℚ
  | .num q => q
  | .date d => d
  | .dateTxt d => d
  | _ => 0

/-- String component of the `sort_values` key (lexicographic order for a
string-typed sort column). -/
def cellKeyStr : Cell → String
  | .txt s => s
  | _ => ""

/-- Row comparison of `df[[date, value]].sort_values(date_column)`: by the
date cell, missing last. -/
def rowLE (a b : Cell × Cell) : Prop :=
  cellKeyRank a.1 < cellKeyRank b.1
    ∨ (cellKeyRank a.1 = cellKeyRank b.1
        ∧ (cellKeyNum a.1 < cellKeyNum b.1
            ∨ (cellKeyNum a.1 = cellKeyNum b.1 ∧ cellKeyStr a.1 ≤ cellKeyStr b.1)))

instance : DecidableRel rowLE := fun a b => by
  unfold rowLE
  infer_instance

/-- `sort_values(date_column)` on the two selected columns. -/
def sortRows (rows : List (Cell × Cell)) : List (Cell × Cell) :=
  List.insertionSort rowLE rows

/-- `series.rolling(window=w).mean()`: same length as the input, `NaN`
(`none`) until the window is first full, then the mean of the trailing `w`
values. -/
def rollingMean (w : ℕ) (l : List ℚ) : List (Option ℚ) :=
  (List.range l.length).map (fun i =>
    if w ≤ i + 1 then some ((((l.take (i + 1)).drop (i + 1 - w)).sum) / (w : ℚ))
    else none)

/-- The 0-based row index regressor `np.arange(len(values))`. -/
def idxList (n : ℕ) : List ℚ := (List.range n).map (fun i => (i : ℚ))

/-- Sum of pairwise products. -/
def sprod (a b : List ℚ) : ℚ := ((a.zip b).map (fun p => p.1 * p.2)).sum

/-- Deviations from the mean. -/
def devList (l : List ℚ) : List ℚ := l.map (fun v => v - meanQ l)

/-- Centered cross moment `Σ (xᵢ - x̄)(yᵢ - ȳ)`. -/
def corrNum (x y : List ℚ) : ℚ := sprod (devList x) (devList y)

/-- `scipy.stats.linregress` slope of the values against the row index. -/
def slopeOf (ys : List ℚ) : ℚ :=
  corrNum (idxList ys.length) ys / corrNum (idxList ys.length) (idxList ys.length)

/-- `r**2` of the regression (`linregress` reports `r = 0` when the value
series is constant). -/
def r2Of (ys : List ℚ) : ℚ :=
  if corrNum ys ys = 0 then 0
  else (corrNum (idxList ys.length) ys) ^ 2
    / (corrNum (idxList ys.length) (idxList ys.length) * corrNum ys ys)

/-- The trend record (analyzer.py lines 305-321).  The `p_value` and
`std_err` floats of `scipy.stats.linregress` involve the t-distribution of an
external library and are touched by no claim; they are not modelled. -/
structure TrendRecord where
  date_column : String
  value_column : String
  data_points : ℕ
  direction : String
  slope : ℚ
  r_squared : ℚ
  growth_rate_percentage : ℚ
  moving_average_7 : List (Option ℚ)
  moving_average_30 : List (Option ℚ)
  start_value : ℚ
  end_value : ℚ
  min_value : ℚ
  max_value : ℚ
  mean_value : ℚ
deriving DecidableEq

/-- The record fields computed from the sorted, NaN-free value series
(analyzer.py lines 276-321). -/
def trendRecordOfSeries (dc vc : String) (s : List ℚ) : TrendRecord :=
  { date_column := dc
    value_column := vc
    data_points := s.length
    direction :=
      if slopeOf s > 1/100 then "increasing"
      else if slopeOf s < -(1/100) then "decreasing"
      else "stable"
    slope := slopeOf s
    r_squared := r2Of s
    growth_rate_percentage :=
      if s.headD 0 ≠ 0 then (s.getLastD 0 - s.headD 0) / s.headD 0 * 100 else 0
    moving_average_7 := rollingMean (min 7 s.length) s
    moving_average_30 := rollingMean (min 30 s.length) s
    start_value := s.headD 0
    end_value := s.getLastD 0
    min_value := colMin s
    max_value := colMax s
    mean_value := meanQ s }

/-- `analyze_trends` (analyzer.py).  The result is paired with the state of
the caller's frame after the call, because the auto-detection loop assigns a
converted column back into the input frame.  A non-numeric value column makes
`values.rolling(...).mean()` raise a pandas `DataError`, modelled as an
error result. -/
def analyze_trends (df : DataFrame) (date_column value_column : Option String) :
    Except String TrendRecord × DataFrame :=
  let step1 : Option String × DataFrame :=
    match date_column with
    | some d => (some d, df)
    | none =>
      match df.filter (fun c => colDtype c.2 = .datetime) with
      | [] => convertLoop df
      | c :: _ => (some c.1, df)
  let df1 : DataFrame := step1.2
  match step1.1 with
  | none => (.error "No date column found", df1)
  | some dc =>
    match (match value_column with
           | some v => some v
           | none => (numericCols df1).head?.map Prod.fst) with
    | none => (.error "No numeric column found", df1)
    | some vc =>
      match df1.lookup dc, df1.lookup vc with
      | some dcells, some vcells =>
        let kept : List (Cell × Cell) := (sortRows (dcells.zip vcells)).filter
          (fun p => decide (p.1 ≠ Cell.missing) && decide (p.2 ≠ Cell.missing))
        if kept.length < 2 then
          (.error "Not enough data points for trend analysis", df1)
        else if kept.all (fun p => match p.2 with | .num _ => true | _ => false) then
          (.ok (trendRecordOfSeries dc vc (kept.map (fun p => cellVal p.2))), df1)
        else
          (.error "DataError: No numeric types to aggregate", df1)
      | _, _ => (.error "KeyError", df1)

/-- C2 (code bug): the Trend Analyzer is not side-effect-free.  On a frame
whose date column is string-typed (every value date-parseable), calling with
no explicit columns converts that column in place: after the call the
caller's frame holds datetime cells where it held strings — the column's
values and dtype changed. -/
theorem analyze_trends_mutates_input :
    (analyze_trends
        [("d", [Cell.dateTxt 0, Cell.dateTxt 1]), ("v", [Cell.num 1, Cell.num 2])]
        none none).2
      = [("d", [Cell.date 0, Cell.date 1]), ("v", [Cell.num 1, Cell.num 2])]
    ∧ (analyze_trends
        [("d", [Cell.dateTxt 0, Cell.dateTxt 1]), ("v", [Cell.num 1, Cell.num 2])]
        none none).2
      ≠ [("d", [Cell.dateTxt 0, Cell.dateTxt 1]), ("v", [Cell.num 1, Cell.num 2])] := by
  constructor
  · rfl
  · decide

/-- C7: over any sorted value series with at least two points, the growth rate
is `(last - first)/first * 100` for a nonzero first value and `0` for a zero
first value (total, no division error); the spec scenario `[10,20,30,40,50]`
yields direction `"increasing"` and growth rate `400`. -/
theorem trend_growth_rate (dc vc : String) (s : List ℚ) (h2 : 2 ≤ s.length) :
    ((s.headD 0 ≠ 0 →
        (trendRecordOfSeries dc vc s).growth_rate_percentage
          = (s.getLastD 0 - s.headD 0) / s.headD 0 * 100)
      ∧ (s.headD 0 = 0 → (trendRecordOfSeries dc vc s).growth_rate_percentage = 0))
    ∧ ((trendRecordOfSeries dc vc [10, 20, 30, 40, 50]).direction = "increasing"
        ∧ (trendRecordOfSeries dc vc [10, 20, 30, 40, 50]).growth_rate_percentage
          = 400) := by
  have hidx : idxList 5 = [0, 1, 2, 3, 4] := by
    norm_num [idxList, show List.range 5 = [0, 1, 2, 3, 4] from rfl]
  have hslope : slopeOf [10, 20, 30, 40, 50] = 10 := by
    norm_num [slopeOf, corrNum, devList, sprod, meanQ,
      show (([10, 20, 30, 40, 50] : List ℚ)).length = 5 from rfl, hidx]
  refine ⟨⟨fun h => ?_, fun h => ?_⟩, ?_, ?_⟩
  · simp only [trendRecordOfSeries, if_pos h]
  · simp only [trendRecordOfSeries, h]
    norm_num
  · show (if slopeOf [10, 20, 30, 40, 50] > 1/100 then "increasing"
      else if slopeOf [10, 20, 30, 40, 50] < -(1/100) then "decreasing"
      else "stable") = "increasing"
    rw [hslope, if_pos (by norm_num)]
  · show (if (10 : ℚ) ≠ 0 then ((50 : ℚ) - 10) / 10 * 100 else 0) = 400
    norm_num

/-- C7 witness: the scenario series `[10,20,30,40,50]`. -/
theorem trend_growth_rate_witness :
    2 ≤ ([10, 20, 30, 40, 50] : List ℚ).length
      ∧ (trendRecordOfSeries "date" "value" [10, 20, 30, 40, 50]).direction
        = "increasing"
      ∧ (trendRecordOfSeries "date" "value" [10, 20, 30, 40, 50]).growth_rate_percentage
        = 400 :=
  ⟨by decide,
    (trend_growth_rate "date" "value" [10, 20, 30, 40, 50] (by decide)).2.1,
    (trend_growth_rate "date" "value" [10, 20, 30, 40, 50] (by decide)).2.2⟩

theorem rollingMean_length (w : ℕ) (l : List ℚ) :
    (rollingMean w l).length = l.length := by
  unfold rollingMean
  rw [List.length_map, List.length_range]

theorem rollingMean_getD (w : ℕ) (l : List ℚ) (i : ℕ) (hi : i < l.length) :
    (rollingMean w l).getD i none
      = if w ≤ i + 1 then some ((((l.take (i + 1)).drop (i + 1 - w)).sum) / (w : ℚ))
        else none := by
  unfold rollingMean
  rw [List.getD_eq_getElem?_getD, List.getElem?_map, List.getElem?_range hi]
  rfl

/-- C9: both rolling-average outputs have exactly the length of the value
series, are `None` at every position before the window (`min(7,n)` resp.
`min(30,n)`) is first full, and carry a value from there on. -/
theorem trend_rolling_shape (dc vc : String) (s : List ℚ) (h2 : 2 ≤ s.length) :
    (trendRecordOfSeries dc vc s).moving_average_7.length = s.length
      ∧ (trendRecordOfSeries dc vc s).moving_average_30.length = s.length
      ∧ (∀ i, i + 1 < min 7 s.length →
          (trendRecordOfSeries dc vc s).moving_average_7.getD i none = none)
      ∧ (∀ i, i + 1 < min 30 s.length →
          (trendRecordOfSeries dc vc s).moving_average_30.getD i none = none)
      ∧ (∀ i, i < s.length → min 7 s.length ≤ i + 1 →
          ((trendRecordOfSeries dc vc s).moving_average_7.getD i none).isSome = true)
      ∧ (∀ i, i < s.length → min 30 s.length ≤ i + 1 →
          ((trendRecordOfSeries dc vc s).moving_average_30.getD i none).isSome = true) := by
  refine ⟨rollingMean_length _ _, rollingMean_length _ _,
    fun i hi => ?_, fun i hi => ?_, fun i hilen hi => ?_, fun i hilen hi => ?_⟩
  · have hilen : i < s.length := by omega
    rw [show (trendRecordOfSeries dc vc s).moving_average_7
        = rollingMean (min 7 s.length) s from rfl,
      rollingMean_getD _ _ _ hilen, if_neg (by omega)]
  · have hilen : i < s.length := by omega
    rw [show (trendRecordOfSeries dc vc s).moving_average_30
        = rollingMean (min 30 s.length) s from rfl,
      rollingMean_getD _ _ _ hilen, if_neg (by omega)]
  · rw [show (trendRecordOfSeries dc vc s).moving_average_7
        = rollingMean (min 7 s.length) s from rfl,
      rollingMean_getD _ _ _ hilen, if_pos (by omega)]
    rfl
  · rw [show (trendRecordOfSeries dc vc s).moving_average_30
        = rollingMean (min 30 s.length) s from rfl,
      rollingMean_getD _ _ _ hilen, if_pos (by omega)]
    rfl

/-- C9 witness: the series `[1,2,3]` (window `min(7,3) = 3`): length 3,
`None` at positions 0 and 1, a value at position 2. -/
theorem trend_rolling_shape_witness :
    2 ≤ ([1, 2, 3] : List ℚ).length
      ∧ (trendRecordOfSeries "d" "v" [1, 2, 3]).moving_average_7.length
        = ([1, 2, 3] : List ℚ).length
      ∧ (trendRecordOfSeries "d" "v" [1, 2, 3]).moving_average_7.getD 0 none = none
      ∧ ((trendRecordOfSeries "d" "v" [1, 2, 3]).moving_average_7.getD 2 none).isSome
        = true :=
  ⟨by decide,
    (trend_rolling_shape "d" "v" [1, 2, 3] (by decide)).1,
    (trend_rolling_shape "d" "v" [1, 2, 3] (by decide)).2.2.1 0 (by decide),
    (trend_rolling_shape "d" "v" [1, 2, 3] (by decide)).2.2.2.2.1 2 (by decide) (by decide)⟩

/-! ### Correlation Engine: `calculate_correlation_matrix` (analyzer.py lines 101-151)

`numeric_df.corr(method)` computes each entry over the pairwise-complete
observations of the two columns.  Every pandas correlation value has the shape
`num / sqrt(den2)` with `num` and `den2` exact rationals of the data
(Pearson: centered cross moment over the product of centered square moments;
Spearman: the same on average ranks; Kendall: `(P - Q)` over
`(n0 - n1)(n0 - n2)`), so the entries live in `ℝ` while all branch decisions
made by the code on them are decided exactly over `ℚ`. -/

/-- The matcher of `pairwiseVals`: a row is kept when both cells carry a
number. -/
def pvMatch (p : Cell × Cell) : Option (ℚ × ℚ) :=
  match p.1, p.2 with
  | .num a, .num b => some (a, b)
  | _, _ => none

/-- The pairwise-complete observations of two columns: rows where both values
are present. -/
def pairwiseVals (xs ys : List Cell) : List (ℚ × ℚ) :=
  (xs.zip ys).filterMap pvMatch

/-- The average rank of value `v` within `l` (ties get the mean of the
positions of their group). -/
def rankFun (l : List ℚ) (v : ℚ) : ℚ :=
  (l.countP (fun w => decide (w < v)) : ℚ) + ((l.count v : ℚ) + 1) / 2

/-- Average ranks: the per-column transform underlying `method='spearman'`. -/
def rankAvg (l : List ℚ) : List ℚ :=
  l.map (rankFun l)

/-- All index-ordered pairs (`i < j`) of elements of a list, in the order the
source's double loop enumerates them. -/
def upairs {α : Type} : List α → List (α × α)
  | [] => []
  | a :: t => t.map (fun b => (a, b)) ++ upairs t

/-- Concordant pair of observations (Kendall). -/
def concordant (p : (ℚ × ℚ) × (ℚ × ℚ)) : Bool :=
  decide ((p.1.1 < p.2.1 ∧ p.1.2 < p.2.2) ∨ (p.2.1 < p.1.1 ∧ p.2.2 < p.1.2))

/-- Discordant pair of observations (Kendall). -/
def discordant (p : (ℚ × ℚ) × (ℚ × ℚ)) : Bool :=
  decide ((p.1.1 < p.2.1 ∧ p.2.2 < p.1.2) ∨ (p.2.1 < p.1.1 ∧ p.1.2 < p.2.2))

/-- The exact `(numerator, squared denominator)` representation of one
correlation entry: the entry's value is `num / sqrt(den2)`. -/
def corrRep (method : String) (ps : List (ℚ × ℚ)) : ℚ × ℚ :=
  if method = "pearson" then
    (corrNum (ps.map Prod.fst) (ps.map Prod.snd),
     corrNum (ps.map Prod.fst) (ps.map Prod.fst)
       * corrNum (ps.map Prod.snd) (ps.map Prod.snd))
  else if method = "spearman" then
    (corrNum (rankAvg (ps.map Prod.fst)) (rankAvg (ps.map Prod.snd)),
     corrNum (rankAvg (ps.map Prod.fst)) (rankAvg (ps.map Prod.fst))
       * corrNum (rankAvg (ps.map Prod.snd)) (rankAvg (ps.map Prod.snd)))
  else if method = "kendall" then
    (((upairs ps).countP concordant : ℚ) - ((upairs ps).countP discordant : ℚ),
     (((upairs ps).length : ℚ)
         - ((upairs ps).countP (fun p => decide (p.1.1 = p.2.1)) : ℚ))
       * (((upairs ps).length : ℚ)
         - ((upairs ps).countP (fun p => decide (p.1.2 = p.2.2)) : ℚ)))
  else (0, 0)

/-- One entry of `numeric_df.corr(method)` as a real number. -/
noncomputable def corrVal (method : String) (xs ys : List Cell) : ℝ :=
  ((corrRep method (pairwiseVals xs ys)).1 : ℝ)
    / Real.sqrt (((corrRep method (pairwiseVals xs ys)).2 : ℚ) : ℝ)

/-- The float comparison `abs(corr_value) > 0.7` of the source, decided
exactly on the rational representation: `num^2 > 0.49 * den2`
(`strongCond_iff_abs` below proves the equivalence). -/
def strongCond (method : String) (xs ys : List Cell) : Bool :=
  decide ((49/100 : ℚ) * (corrRep method (pairwiseVals xs ys)).2
    < (corrRep method (pairwiseVals xs ys)).1 ^ 2)

/-- One element of the `strong_correlations` list (analyzer.py lines
139-144). -/
structure StrongPair where
  column1 : String
  column2 : String
  correlation : ℝ
  strength : String

/-- The strong-correlation extraction: the double loop over `i < j` column
pairs, keeping `|r| > 0.7` and tagging by `corr_value > 0.7` (equivalently,
by the sign of the numerator; `strongTag_eq_sign` below). -/
noncomputable def strongPairs (method : String)
    (cols : List (String × List Cell)) : List StrongPair :=
  (upairs cols).filterMap (fun p =>
    if strongCond method p.1.2 p.2.2 then
      some { column1 := p.1.1
             column2 := p.2.1
             correlation := corrVal method p.1.2 p.2.2
             strength := if 0 < (corrRep method (pairwiseVals p.1.2 p.2.2)).1
                         then "strong positive" else "strong negative" }
    else none)

/-- The result of `calculate_correlation_matrix`. -/
structure CorrResult where
  matrix : List (String × List (String × ℝ))
  columns : List String
  method : String
  strong_correlations : List StrongPair

/-- `calculate_correlation_matrix` (analyzer.py): error below 2 numeric
columns; the nested-dict matrix over the numeric columns, the ordered column
list, and the strong pairs.  pandas raises for a method outside its
enumeration, modelled as an error result. -/
noncomputable def calculate_correlation_matrix (df : DataFrame) (method : String) :
    Except String CorrResult :=
  let nd := numericCols df
  if nd.length < 2 then
    .error "Need at least 2 numeric columns"
  else if method = "pearson" ∨ method = "spearman" ∨ method = "kendall" then
    .ok { matrix := nd.map (fun a => (a.1, nd.map (fun b => (b.1, corrVal method a.2 b.2))))
          columns := nd.map Prod.fst
          method := method
          strong_correlations := strongPairs method nd }
  else
    .error "ValueError: method must be either 'pearson', 'spearman', or 'kendall'"

/-! #### Algebraic groundwork -/

theorem sprod_comm : ∀ (a b : List ℚ), sprod a b = sprod b a
  | [], [] => rfl
  | [], _ :: _ => rfl
  | _ :: _, [] => rfl
  | x :: xs, y :: ys => by
    show (x * y) + sprod xs ys = (y * x) + sprod ys xs
    rw [mul_comm, sprod_comm xs ys]

theorem corrNum_comm (x y : List ℚ) : corrNum x y = corrNum y x :=
  sprod_comm _ _

theorem sprod_self_nonneg : ∀ (a : List ℚ), 0 ≤ sprod a a
  | [] => le_refl 0
  | x :: xs => by
    show (0:ℚ) ≤ x * x + sprod xs xs
    have h := sprod_self_nonneg xs
    nlinarith [mul_self_nonneg x]

theorem sprod_self_eq_zero : ∀ {a : List ℚ}, sprod a a = 0 → ∀ x ∈ a, x = 0
  | [], _, x, hx => absurd hx (List.not_mem_nil x)
  | y :: ys, h, x, hx => by
    have h' : y * y + sprod ys ys = 0 := h
    have h1 : y = 0 ∧ sprod ys ys = 0 := by
      constructor
      · nlinarith [sprod_self_nonneg ys, mul_self_nonneg y]
      · nlinarith [sprod_self_nonneg ys, mul_self_nonneg y]
    rcases List.mem_cons.mp hx with rfl | hmem
    · exact h1.1
    · exact sprod_self_eq_zero h1.2 x hmem

theorem sprod_zero_left : ∀ {a : List ℚ}, (∀ x ∈ a, x = 0) → ∀ (b : List ℚ), sprod a b = 0
  | [], _, b => by cases b <;> rfl
  | x :: xs, h, [] => rfl
  | x :: xs, h, y :: ys => by
    show x * y + sprod xs ys = 0
    rw [h x (List.mem_cons_self x xs), zero_mul, zero_add]
    exact sprod_zero_left (fun z hz => h z (List.mem_cons_of_mem x hz)) ys

theorem corrNum_self_nonneg (l : List ℚ) : 0 ≤ corrNum l l :=
  sprod_self_nonneg _

/-- `Σ (xᵢ - x̄)² = 0` iff all values are equal. -/
theorem corrNum_self_eq_zero_iff (l : List ℚ) :
    corrNum l l = 0 ↔ ∀ a ∈ l, ∀ b ∈ l, a = b := by
  constructor
  · intro h a ha b hb
    have hz := sprod_self_eq_zero h
    have ha' : a - meanQ l = 0 := hz _ (List.mem_map.mpr ⟨a, ha, rfl⟩)
    have hb' : b - meanQ l = 0 := hz _ (List.mem_map.mpr ⟨b, hb, rfl⟩)
    linarith
  · intro h
    rcases l with _ | ⟨c, t⟩
    · rfl
    · have hc : c ∈ c :: t := List.mem_cons_self c t
      have hconst : ∀ a ∈ c :: t, a = c := fun a ha => h a ha c hc
      have hmean : meanQ (c :: t) = c := meanQ_const hconst (by simp)
      apply sprod_zero_left
      intro x hx
      rcases List.mem_map.mp hx with ⟨v, hv, rfl⟩
      rw [hconst v hv, hmean, sub_self]

/-- If a centered square moment vanishes, so does every centered cross moment
with that column. -/
theorem corrNum_eq_zero_left {x : List ℚ} (h : corrNum x x = 0) (y : List ℚ) :
    corrNum x y = 0 :=
  sprod_zero_left (sprod_self_eq_zero h) _

/-! #### Symmetry of the matrix -/

theorem pvMatch_swap (p : Cell × Cell) :
    pvMatch (Prod.swap p) = (pvMatch p).map (fun q => (q.2, q.1)) := by
  rcases p with ⟨x, y⟩
  cases x <;> cases y <;> rfl

theorem pairwiseVals_swap (xs ys : List Cell) :
    pairwiseVals ys xs = (pairwiseVals xs ys).map (fun q => (q.2, q.1)) := by
  unfold pairwiseVals
  rw [← List.zip_swap xs ys, List.filterMap_map, List.map_filterMap]
  exact List.filterMap_congr (fun p _ => pvMatch_swap p)

theorem upairs_map {α β : Type} (f : α → β) : ∀ (l : List α),
    upairs (l.map f) = (upairs l).map (fun p => (f p.1, f p.2))
  | [] => rfl
  | a :: t => by
    show (t.map f).map (fun b => (f a, b)) ++ upairs (t.map f)
        = (t.map (fun b => (a, b)) ++ upairs t).map (fun p => (f p.1, f p.2))
    rw [List.map_append, upairs_map f t, List.map_map, List.map_map]
    rfl

theorem upairs_all_eq {α : Type} : ∀ {l : List α},
    (∀ p ∈ upairs l, p.1 = p.2) → ∀ a ∈ l, ∀ b ∈ l, a = b
  | [], _, a, ha, _, _ => absurd ha (List.not_mem_nil a)
  | c :: t, h, a, ha, b, hb => by
    have hhead : ∀ x ∈ t, c = x := fun x hx =>
      h (c, x) (List.mem_append_left _ (List.mem_map.mpr ⟨x, hx, rfl⟩))
    have htail : ∀ p ∈ upairs t, p.1 = p.2 := fun p hp =>
      h p (List.mem_append_right _ hp)
    rcases List.mem_cons.mp ha with rfl | ha' <;> rcases List.mem_cons.mp hb with rfl | hb'
    · rfl
    · exact hhead b hb'
    · exact (hhead a ha').symm
    · exact upairs_all_eq htail a ha' b hb'

theorem concordant_swap (a b : ℚ × ℚ) :
    concordant ((a.2, a.1), (b.2, b.1)) = concordant (a, b) := by
  unfold concordant
  exact decide_eq_decide.mpr (by tauto)

theorem discordant_swap (a b : ℚ × ℚ) :
    discordant ((a.2, a.1), (b.2, b.1)) = discordant (a, b) := by
  unfold discordant
  exact decide_eq_decide.mpr (by tauto)

/-- Swapping the two columns leaves both components of the rational
representation unchanged, for every method string. -/
theorem corrRep_swap (m : String) (xs ys : List Cell) :
    corrRep m (pairwiseVals ys xs) = corrRep m (pairwiseVals xs ys) := by
  rw [pairwiseVals_swap xs ys]
  set P := pairwiseVals xs ys with hP
  have hfst : (P.map (fun q => (q.2, q.1))).map Prod.fst = P.map Prod.snd := by
    rw [List.map_map]
    rfl
  have hsnd : (P.map (fun q => (q.2, q.1))).map Prod.snd = P.map Prod.fst := by
    rw [List.map_map]
    rfl
  unfold corrRep
  split_ifs with h1 h2 h3
  · rw [hfst, hsnd, Prod.mk.injEq]
    exact ⟨corrNum_comm _ _, mul_comm _ _⟩
  · rw [hfst, hsnd, Prod.mk.injEq]
    exact ⟨corrNum_comm _ _, mul_comm _ _⟩
  · have hup : upairs (P.map (fun q => (q.2, q.1)))
        = (upairs P).map (fun p => ((p.1.2, p.1.1), (p.2.2, p.2.1))) :=
      upairs_map _ P
    rw [hup, List.countP_map, List.countP_map, List.countP_map,
      List.countP_map, List.length_map]
    have hconc : List.countP
        (concordant ∘ fun p => ((p.1.2, p.1.1), (p.2.2, p.2.1))) (upairs P)
        = List.countP concordant (upairs P) := by
      apply List.countP_congr
      intro x _
      show concordant ((x.1.2, x.1.1), (x.2.2, x.2.1)) = true ↔ concordant x = true
      rw [concordant_swap x.1 x.2]
    have hdisc : List.countP
        (discordant ∘ fun p => ((p.1.2, p.1.1), (p.2.2, p.2.1))) (upairs P)
        = List.countP discordant (upairs P) := by
      apply List.countP_congr
      intro x _
      show discordant ((x.1.2, x.1.1), (x.2.2, x.2.1)) = true ↔ discordant x = true
      rw [discordant_swap x.1 x.2]
    have htx : List.countP
        ((fun p => decide (p.1.1 = p.2.1)) ∘ fun p => ((p.1.2, p.1.1), (p.2.2, p.2.1)))
        (upairs P)
        = List.countP (fun p => decide (p.1.2 = p.2.2)) (upairs P) := by
      apply List.countP_congr
      intro x _
      exact Iff.rfl
    have hty : List.countP
        ((fun p => decide (p.1.2 = p.2.2)) ∘ fun p => ((p.1.2, p.1.1), (p.2.2, p.2.1)))
        (upairs P)
        = List.countP (fun p => decide (p.1.1 = p.2.1)) (upairs P) := by
      apply List.countP_congr
      intro x _
      exact Iff.rfl
    rw [hconc, hdisc, htx, hty, Prod.mk.injEq]
    exact ⟨rfl, mul_comm _ _⟩
  · rfl

/-- Symmetry of each matrix entry. -/
theorem corrVal_comm (m : String) (xs ys : List Cell) :
    corrVal m ys xs = corrVal m xs ys := by
  unfold corrVal
  rw [corrRep_swap]

/-! #### The diagonal -/

theorem pairwiseVals_self : ∀ (xs : List Cell),
    pairwiseVals xs xs = (dropna xs).map (fun q => (q, q))
  | [] => rfl
  | c :: t => by
    have ih := pairwiseVals_self t
    simp only [pairwiseVals, dropna] at ih ⊢
    cases c <;> simp [List.zip_cons_cons, List.filterMap_cons, pvMatch, ih]

/-- `x / sqrt(x * x) = 1` for positive rational `x`, in `ℝ`. -/
theorem div_sqrt_self {x : ℚ} (hx0 : 0 ≤ x) (hx : x ≠ 0) :
    ((x : ℝ)) / Real.sqrt (((x * x : ℚ) : ℚ) : ℝ) = 1 := by
  push_cast
  rw [Real.sqrt_mul_self (by exact_mod_cast hx0)]
  exact div_self (by exact_mod_cast hx)

theorem countP_lt_add_count (l : List ℚ) (a : ℚ) :
    l.countP (fun w => decide (w < a)) + l.count a
      = l.countP (fun w => decide (w ≤ a)) := by
  induction l with
  | nil => rfl
  | cons x t ih =>
    rcases lt_trichotomy x a with h | h | h
    · simp [List.countP_cons, List.count_cons, h, h.le, h.ne, h.ne']
      omega
    · subst h
      simp [List.countP_cons, List.count_cons, lt_irrefl]
      omega
    · simp [List.countP_cons, List.count_cons, not_lt.mpr h.le, not_le.mpr h,
        h.ne, h.ne']
      omega

/-- Average ranks are strictly monotone across distinct values of the list. -/
theorem rankFun_lt {l : List ℚ} {a b : ℚ} (ha : a ∈ l) (hb : b ∈ l)
    (hab : a < b) : rankFun l a < rankFun l b := by
  have hEa : 1 ≤ l.count a := List.count_pos_iff.mpr ha
  have hEb : 1 ≤ l.count b := List.count_pos_iff.mpr hb
  have hstep : l.countP (fun w => decide (w ≤ a)) ≤ l.countP (fun w => decide (w < b)) :=
    List.countP_mono_left (fun x _ hx =>
      decide_eq_true (lt_of_le_of_lt (of_decide_eq_true hx) hab))
  have hkey : l.countP (fun w => decide (w < a)) + l.count a
      ≤ l.countP (fun w => decide (w < b)) := by
    rw [countP_lt_add_count]
    exact hstep
  have h1 : (l.countP (fun w => decide (w < a)) : ℚ) + (l.count a : ℚ)
      ≤ (l.countP (fun w => decide (w < b)) : ℚ) := by exact_mod_cast hkey
  have hEaq : (1 : ℚ) ≤ (l.count a : ℚ) := by exact_mod_cast hEa
  have hEbq : (1 : ℚ) ≤ (l.count b : ℚ) := by exact_mod_cast hEb
  unfold rankFun
  linarith

/-- A column with nonzero variance keeps nonzero variance after the rank
transform. -/
theorem rank_corrNum_ne_zero {v : List ℚ} (hvar : corrNum v v ≠ 0) :
    corrNum (rankAvg v) (rankAvg v) ≠ 0 := by
  intro h0
  apply hvar
  rw [corrNum_self_eq_zero_iff] at h0 ⊢
  intro a ha b hb
  by_contra hne
  have hmem : ∀ x ∈ v, rankFun v x ∈ rankAvg v := fun x hx =>
    List.mem_map.mpr ⟨x, hx, rfl⟩
  rcases Ne.lt_or_lt hne with hlt | hlt
  · exact absurd (h0 _ (hmem a ha) _ (hmem b hb)) (ne_of_lt (rankFun_lt ha hb hlt))
  · exact absurd (h0 _ (hmem b hb) _ (hmem a ha)) (ne_of_lt (rankFun_lt hb ha hlt))

/-- Nonzero variance yields a non-tied index pair. -/
theorem exists_ne_pair {v : List ℚ} (hvar : corrNum v v ≠ 0) :
    ∃ p ∈ upairs v, p.1 ≠ p.2 := by
  by_contra h
  push_neg at h
  exact hvar ((corrNum_self_eq_zero_iff v).mpr (upairs_all_eq h))

/-- The diagonal entry of the correlation matrix is exactly 1 for a column
with nonzero variance, under each of the three methods. -/
theorem corrVal_self (m : String)
    (hm : m = "pearson" ∨ m = "spearman" ∨ m = "kendall") (cells : List Cell)
    (hvar : corrNum (dropna cells) (dropna cells) ≠ 0) :
    corrVal m cells cells = 1 := by
  have hP : pairwiseVals cells cells = (dropna cells).map (fun q => (q, q)) :=
    pairwiseVals_self cells
  have hfst : ((dropna cells).map (fun q => (q, q))).map Prod.fst = dropna cells := by
    rw [List.map_map]
    show (dropna cells).map id = dropna cells
    exact List.map_id _
  have hsnd : ((dropna cells).map (fun q => (q, q))).map Prod.snd = dropna cells := by
    rw [List.map_map]
    show (dropna cells).map id = dropna cells
    exact List.map_id _
  unfold corrVal
  rw [hP]
  rcases hm with rfl | rfl | rfl
  · -- pearson
    unfold corrRep
    rw [if_pos rfl, hfst, hsnd]
    exact div_sqrt_self (corrNum_self_nonneg _) hvar
  · -- spearman
    unfold corrRep
    rw [if_neg (by decide), if_pos rfl, hfst, hsnd]
    exact div_sqrt_self (corrNum_self_nonneg _) (rank_corrNum_ne_zero hvar)
  · -- kendall
    unfold corrRep
    rw [if_neg (by decide), if_neg (by decide), if_pos rfl]
    have hup : upairs ((dropna cells).map (fun q => (q, q)))
        = (upairs (dropna cells)).map (fun p => ((p.1, p.1), (p.2, p.2))) :=
      upairs_map _ _
    rw [hup, List.countP_map, List.countP_map, List.countP_map,
      List.countP_map, List.length_map]
    have hconc : List.countP (concordant ∘ fun p => ((p.1, p.1), (p.2, p.2)))
        (upairs (dropna cells))
        = List.countP (fun p : ℚ × ℚ => decide (¬(p.1 = p.2))) (upairs (dropna cells)) := by
      apply List.countP_congr
      intro x _
      show concordant ((x.1, x.1), (x.2, x.2)) = true ↔ decide (¬(x.1 = x.2)) = true
      unfold concordant
      simp only [decide_eq_true_eq]
      constructor
      · rintro (⟨h, _⟩ | ⟨h, _⟩)
        · exact h.ne
        · exact h.ne'
      · intro h
        rcases Ne.lt_or_lt h with h' | h'
        · exact Or.inl ⟨h', h'⟩
        · exact Or.inr ⟨h', h'⟩
    have hdisc : List.countP (discordant ∘ fun p => ((p.1, p.1), (p.2, p.2)))
        (upairs (dropna cells)) = 0 := by
      rw [List.countP_eq_zero]
      intro x _
      show ¬ discordant ((x.1, x.1), (x.2, x.2)) = true
      unfold discordant
      simp only [decide_eq_true_eq]
      rintro (⟨h1, h2⟩ | ⟨h1, h2⟩) <;> exact absurd (h1.trans h2) (lt_irrefl _)
    have htx : List.countP
        ((fun p : (ℚ × ℚ) × (ℚ × ℚ) => decide (p.1.1 = p.2.1))
          ∘ fun p => ((p.1, p.1), (p.2, p.2))) (upairs (dropna cells))
        = List.countP (fun p : ℚ × ℚ => decide (p.1 = p.2)) (upairs (dropna cells)) :=
      List.countP_congr (fun x _ => Iff.rfl)
    have hty : List.countP
        ((fun p : (ℚ × ℚ) × (ℚ × ℚ) => decide (p.1.2 = p.2.2))
          ∘ fun p => ((p.1, p.1), (p.2, p.2))) (upairs (dropna cells))
        = List.countP (fun p : ℚ × ℚ => decide (p.1 = p.2)) (upairs (dropna cells)) :=
      List.countP_congr (fun x _ => Iff.rfl)
    rw [hconc, hdisc, htx, hty]
    have hsplit : (upairs (dropna cells)).length
        = List.countP (fun p : ℚ × ℚ => decide (p.1 = p.2)) (upairs (dropna cells))
          + List.countP (fun p : ℚ × ℚ => decide (¬(p.1 = p.2))) (upairs (dropna cells)) := by
      have h := List.length_eq_countP_add_countP
        (fun p : ℚ × ℚ => decide (p.1 = p.2)) (upairs (dropna cells))
      rw [h]
      congr 1
      apply List.countP_congr
      intro x _
      simp
    have hpos : 0 < List.countP (fun p : ℚ × ℚ => decide (¬(p.1 = p.2)))
        (upairs (dropna cells)) := by
      rw [List.countP_pos_iff]
      rcases exists_ne_pair hvar with ⟨p, hp, hne⟩
      exact ⟨p, hp, decide_eq_true hne⟩
    set cne := List.countP (fun p : ℚ × ℚ => decide (¬(p.1 = p.2))) (upairs (dropna cells))
    set ceq := List.countP (fun p : ℚ × ℚ => decide (p.1 = p.2)) (upairs (dropna cells))
    have harith : ((upairs (dropna cells)).length : ℚ) - (ceq : ℚ) = (cne : ℚ) := by
      rw [hsplit]
      push_cast
      ring
    rw [harith]
    have hnum : ((cne : ℚ) - ((0 : ℕ) : ℚ)) = (cne : ℚ) := by push_cast; ring
    rw [hnum]
    exact @div_sqrt_self (cne : ℚ) (by positivity) (by exact_mod_cast hpos.ne')

/-! #### C5: symmetry and diagonal of the served matrix -/

/-- Entry lookup in the nested-mapping matrix (`corr_dict[a][b]`). -/
def lookup2 (mx : List (String × List (String × ℝ))) (a b : String) : Option ℝ :=
  (mx.lookup a).bind (fun row => row.lookup b)

theorem lookup_map_pair {β : Type} (f : String × List Cell → β) (a : String) :
    ∀ (nd : List (String × List Cell)),
    (nd.map (fun c => (c.1, f c))).lookup a
      = (nd.find? (fun c => a == c.1)).map f
  | [] => rfl
  | c :: t => by
    cases h : (a == c.1) <;>
      simp [List.lookup_cons, List.find?_cons, h, lookup_map_pair f a t]

theorem lookup_eq_find? (a : String) : ∀ (nd : List (String × List Cell)),
    nd.lookup a = (nd.find? (fun c => a == c.1)).map Prod.snd
  | [] => rfl
  | ⟨k, v⟩ :: t => by
    cases h : (a == k) <;>
      simp [List.lookup_cons, List.find?_cons, h, lookup_eq_find? a t]

/-- C5: for every table with at least 2 numeric columns and every supported
method, the served matrix is symmetric (`M[a][b] = M[b][a]`) and its diagonal
entry is exactly 1.0 for every numeric column with nonzero variance (the
sample variance of a column is `Σ (x - x̄)² / (n - 1)`, so nonzero defined
variance is exactly a nonzero centered square moment `Σ (x - x̄)²`). -/
theorem corr_matrix_symmetric_diag (df : DataFrame) (method : String)
    (res : CorrResult)
    (hok : calculate_correlation_matrix df method = .ok res) :
    (∀ a b, lookup2 res.matrix a b = lookup2 res.matrix b a)
    ∧ (∀ a cells, (numericCols df).lookup a = some cells →
        corrNum (dropna cells) (dropna cells) ≠ 0 →
        lookup2 res.matrix a a = some 1) := by
  unfold calculate_correlation_matrix at hok
  by_cases hlen : (numericCols df).length < 2
  · simp [hlen] at hok
  · by_cases hmeth : method = "pearson" ∨ method = "spearman" ∨ method = "kendall"
    · simp only [if_neg hlen, if_pos hmeth, Except.ok.injEq] at hok
      subst hok
      have hform : ∀ x y,
          lookup2 ((numericCols df).map (fun a =>
            (a.1, (numericCols df).map (fun b => (b.1, corrVal method a.2 b.2))))) x y
          = ((numericCols df).find? (fun c => x == c.1)).bind (fun cx =>
              ((numericCols df).find? (fun c => y == c.1)).map
                (fun cy => corrVal method cx.2 cy.2)) := by
        intro x y
        unfold lookup2
        rw [lookup_map_pair
          (fun a => (numericCols df).map (fun b => (b.1, corrVal method a.2 b.2))) x]
        cases hfx : (numericCols df).find? (fun c => x == c.1) with
        | none => rfl
        | some cx =>
          show ((numericCols df).map
              (fun b => (b.1, corrVal method cx.2 b.2))).lookup y = _
          rw [lookup_map_pair (fun b => corrVal method cx.2 b.2) y]
          rfl
      constructor
      · intro a b
        rw [hform a b, hform b a]
        cases hfa : (numericCols df).find? (fun c => a == c.1) with
        | none =>
          cases hfb : (numericCols df).find? (fun c => b == c.1) with
          | none => rfl
          | some cb => rfl
        | some ca =>
          cases hfb : (numericCols df).find? (fun c => b == c.1) with
          | none => rfl
          | some cb =>
            show some (corrVal method ca.2 cb.2) = some (corrVal method cb.2 ca.2)
            rw [corrVal_comm]
      · intro a cells hlk hvar
        rw [lookup_eq_find? a] at hlk
        cases hfa : (numericCols df).find? (fun c => a == c.1) with
        | none => rw [hfa] at hlk; exact absurd hlk (by simp)
        | some ca =>
          rw [hfa] at hlk
          simp only [Option.map_some', Option.some.injEq] at hlk
          rw [hform a a, hfa]
          show some (corrVal method ca.2 ca.2) = some 1
          rw [hlk, corrVal_self method hmeth cells hvar]
    · rw [if_neg hlen, if_neg hmeth] at hok
      exact absurd hok (by simp)

/-- C5 witness: a two-numeric-column table under the default method. -/
theorem corr_matrix_symmetric_diag_witness :
    ∃ res, calculate_correlation_matrix
        [("x", [Cell.num 1, Cell.num 2]), ("y", [Cell.num 5, Cell.num 4])] "pearson"
        = .ok res
      ∧ lookup2 res.matrix "x" "y" = lookup2 res.matrix "y" "x"
      ∧ lookup2 res.matrix "x" "x" = some 1 :=
  ⟨_, rfl,
    (corr_matrix_symmetric_diag
      [("x", [Cell.num 1, Cell.num 2]), ("y", [Cell.num 5, Cell.num 4])]
      "pearson" _ rfl).1 "x" "y",
    (corr_matrix_symmetric_diag
      [("x", [Cell.num 1, Cell.num 2]), ("y", [Cell.num 5, Cell.num 4])]
      "pearson" _ rfl).2 "x" [Cell.num 1, Cell.num 2] rfl
      (by
        have hd : dropna [Cell.num 1, Cell.num 2] = [1, 2] := rfl
        norm_num [corrNum, devList, sprod, meanQ, hd])⟩

/-! #### C6: the strong-correlation list -/

/-- `num / sqrt(den2)` exceeds `0.7` in absolute value iff
`num² > 0.49·den2`, given `den2 ≥ 0` degenerating to `num = 0` at zero. -/
theorem ratio_abs_gt {num den2 : ℚ} (hnn : 0 ≤ den2) (hz : den2 = 0 → num = 0) :
    ((49/100 : ℚ) * den2 < num ^ 2)
      ↔ (7/10 : ℝ) < |((num : ℝ) / Real.sqrt ((den2 : ℚ) : ℝ))| := by
  rcases eq_or_lt_of_le hnn with heq | hpos
  · have hn0 : num = 0 := hz heq.symm
    subst hn0
    rw [← heq]
    norm_num
  · have hs : 0 < Real.sqrt ((den2 : ℚ) : ℝ) :=
      Real.sqrt_pos.mpr (by exact_mod_cast hpos)
    rw [abs_div, abs_of_nonneg (Real.sqrt_nonneg _), lt_div_iff hs]
    constructor
    · intro h
      have hR : (((49:ℚ)/100 * den2 : ℚ) : ℝ) < (((num : ℚ) : ℝ)) ^ 2 := by
        exact_mod_cast h
      push_cast at hR
      have hsq : (7/10 * Real.sqrt ((den2 : ℚ) : ℝ)) ^ 2 < |(num : ℝ)| ^ 2 := by
        rw [mul_pow, Real.sq_sqrt (by positivity), sq_abs]
        nlinarith [hR]
      exact lt_of_pow_lt_pow_left 2 (abs_nonneg _) hsq
    · intro h
      have hsq := pow_lt_pow_left h (by positivity) (two_ne_zero)
      rw [mul_pow, Real.sq_sqrt (by positivity), sq_abs] at hsq
      have hR : (((49:ℚ)/100 * den2 : ℚ) : ℝ) < ((num ^ 2 : ℚ) : ℝ) := by
        push_cast
        nlinarith [hsq]
      exact_mod_cast hR

/-- The squared denominator of every method is nonnegative. -/
theorem corrRep_den2_nonneg (m : String) (ps : List (ℚ × ℚ)) :
    0 ≤ (corrRep m ps).2 := by
  unfold corrRep
  split_ifs
  · exact mul_nonneg (corrNum_self_nonneg _) (corrNum_self_nonneg _)
  · exact mul_nonneg (corrNum_self_nonneg _) (corrNum_self_nonneg _)
  · have h1 : ((upairs ps).countP (fun p => decide (p.1.1 = p.2.1)))
        ≤ (upairs ps).length := List.countP_le_length _
    have h2 : ((upairs ps).countP (fun p => decide (p.1.2 = p.2.2)))
        ≤ (upairs ps).length := List.countP_le_length _
    have h1q : ((upairs ps).countP (fun p => decide (p.1.1 = p.2.1)) : ℚ)
        ≤ ((upairs ps).length : ℚ) := by exact_mod_cast h1
    have h2q : ((upairs ps).countP (fun p => decide (p.1.2 = p.2.2)) : ℚ)
        ≤ ((upairs ps).length : ℚ) := by exact_mod_cast h2
    have := mul_nonneg (sub_nonneg.mpr h1q) (sub_nonneg.mpr h2q)
    exact this
  · exact le_refl 0

/-- A tied column kills both the concordant and discordant counts. -/
theorem kendall_num_zero_of_tied {ps : List (ℚ × ℚ)}
    (h : ((upairs ps).countP (fun p => decide (p.1.1 = p.2.1)) = (upairs ps).length)
        ∨ ((upairs ps).countP (fun p => decide (p.1.2 = p.2.2)) = (upairs ps).length)) :
    ((upairs ps).countP concordant : ℚ) - ((upairs ps).countP discordant : ℚ) = 0 := by
  have hzero : (upairs ps).countP concordant = 0 ∧ (upairs ps).countP discordant = 0 := by
    rcases h with h | h
    · have htied := List.countP_eq_length.mp h
      constructor
      · rw [List.countP_eq_zero]
        intro p hp
        have heq := of_decide_eq_true (htied p hp)
        unfold concordant
        simp only [decide_eq_true_eq]
        rintro (⟨h1, _⟩ | ⟨h1, _⟩)
        · exact h1.ne heq
        · exact h1.ne' heq
      · rw [List.countP_eq_zero]
        intro p hp
        have heq := of_decide_eq_true (htied p hp)
        unfold discordant
        simp only [decide_eq_true_eq]
        rintro (⟨h1, _⟩ | ⟨h1, _⟩)
        · exact h1.ne heq
        · exact h1.ne' heq
    · have htied := List.countP_eq_length.mp h
      constructor
      · rw [List.countP_eq_zero]
        intro p hp
        have heq := of_decide_eq_true (htied p hp)
        unfold concordant
        simp only [decide_eq_true_eq]
        rintro (⟨_, h2⟩ | ⟨_, h2⟩)
        · exact h2.ne heq
        · exact h2.ne' heq
      · rw [List.countP_eq_zero]
        intro p hp
        have heq := of_decide_eq_true (htied p hp)
        unfold discordant
        simp only [decide_eq_true_eq]
        rintro (⟨_, h2⟩ | ⟨_, h2⟩)
        · exact h2.ne' heq
        · exact h2.ne heq
  rw [hzero.1, hzero.2]
  norm_num

/-- A vanishing squared denominator forces a vanishing numerator, for every
method. -/
theorem corrRep_den2_zero (m : String) (ps : List (ℚ × ℚ)) :
    (corrRep m ps).2 = 0 → (corrRep m ps).1 = 0 := by
  unfold corrRep
  split_ifs
  · intro h
    rcases mul_eq_zero.mp h with h0 | h0
    · exact corrNum_eq_zero_left h0 _
    · rw [corrNum_comm]
      exact corrNum_eq_zero_left h0 _
  · intro h
    rcases mul_eq_zero.mp h with h0 | h0
    · exact corrNum_eq_zero_left h0 _
    · rw [corrNum_comm]
      exact corrNum_eq_zero_left h0 _
  · intro h
    rcases mul_eq_zero.mp h with h0 | h0
    · apply kendall_num_zero_of_tied
      left
      have h1 : ((upairs ps).countP (fun p => decide (p.1.1 = p.2.1)) : ℚ)
          = ((upairs ps).length : ℚ) := by linarith [sub_eq_zero.mp h0]
      exact_mod_cast h1
    · apply kendall_num_zero_of_tied
      right
      have h1 : ((upairs ps).countP (fun p => decide (p.1.2 = p.2.2)) : ℚ)
          = ((upairs ps).length : ℚ) := by linarith [sub_eq_zero.mp h0]
      exact_mod_cast h1
  · intro _
    rfl

/-- The source's exact branch condition agrees with `|r| > 0.7`. -/
theorem strongCond_iff_abs (m : String) (xs ys : List Cell) :
    strongCond m xs ys = true ↔ (7/10 : ℝ) < |corrVal m xs ys| := by
  unfold strongCond corrVal
  rw [decide_eq_true_eq]
  exact ratio_abs_gt (corrRep_den2_nonneg m _) (corrRep_den2_zero m _)

/-- Under the strong-pair condition, the numerator's sign is the sign of the
correlation value, so the source's `corr_value > 0.7` tag agrees with tagging
by the sign of `r`. -/
theorem corrVal_pos_iff (m : String) (xs ys : List Cell)
    (hsc : strongCond m xs ys = true) :
    (0 < (corrRep m (pairwiseVals xs ys)).1 ↔ 0 < corrVal m xs ys) := by
  have hq : (49/100 : ℚ) * (corrRep m (pairwiseVals xs ys)).2
      < (corrRep m (pairwiseVals xs ys)).1 ^ 2 := by
    have := hsc
    unfold strongCond at this
    exact of_decide_eq_true this
  have hden0 : (corrRep m (pairwiseVals xs ys)).2 ≠ 0 := by
    intro h0
    rw [h0, corrRep_den2_zero m _ h0] at hq
    norm_num at hq
  have hdpos : 0 < (corrRep m (pairwiseVals xs ys)).2 :=
    lt_of_le_of_ne (corrRep_den2_nonneg m _) (Ne.symm hden0)
  have hs : 0 < Real.sqrt (((corrRep m (pairwiseVals xs ys)).2 : ℚ) : ℝ) :=
    Real.sqrt_pos.mpr (by exact_mod_cast hdpos)
  unfold corrVal
  constructor
  · intro h
    exact div_pos (by exact_mod_cast h) hs
  · intro h
    rcases div_pos_iff.mp h with ⟨hn, _⟩ | ⟨_, hsneg⟩
    · exact_mod_cast hn
    · linarith

open Classical in
/-- The strong-correlation list as the spec words it: the `i < j` column
pairs whose correlation exceeds `0.7` in absolute value, tagged
`"strong positive"` when `r` is positive and `"strong negative"` when
negative. -/
noncomputable def specStrongList (cols : List (String × List Cell)) : List StrongPair :=
  (upairs cols).filterMap (fun p =>
    if (7/10 : ℝ) < |corrVal "pearson" p.1.2 p.2.2| then
      some { column1 := p.1.1
             column2 := p.2.1
             correlation := corrVal "pearson" p.1.2 p.2.2
             strength := if 0 < corrVal "pearson" p.1.2 p.2.2
                         then "strong positive" else "strong negative" }
    else none)

/-- The code's strong-pair extraction coincides with the spec's description,
pair for pair. -/
theorem strongPairs_eq_spec (cols : List (String × List Cell)) :
    strongPairs "pearson" cols = specStrongList cols := by
  unfold strongPairs specStrongList
  apply List.filterMap_congr
  intro p _
  by_cases hsc : strongCond "pearson" p.1.2 p.2.2 = true
  · rw [if_pos hsc, if_pos ((strongCond_iff_abs _ _ _).mp hsc)]
    have hiff := corrVal_pos_iff "pearson" p.1.2 p.2.2 hsc
    rw [if_congr hiff rfl rfl]
  · rw [if_neg hsc, if_neg (fun hr => hsc ((strongCond_iff_abs _ _ _).mpr hr))]

/-- C6: the strong-correlation list of `calculate_correlation_matrix` under
the engine's default method contains exactly the `i < j` column pairs whose
correlation exceeds 0.7 in absolute value, tagged by the sign of `r`; and on
the spec scenario `x=[1,2,3,4]`, `y=[2,4,6,8]` the pearson correlation is
exactly 1.0 and the pair appears tagged `"strong positive"`. -/
theorem strong_correlations_exact (df : DataFrame) (res : CorrResult)
    (hok : calculate_correlation_matrix df "pearson" = .ok res) :
    res.strong_correlations = specStrongList (numericCols df)
    ∧ corrVal "pearson" [Cell.num 1, Cell.num 2, Cell.num 3, Cell.num 4]
        [Cell.num 2, Cell.num 4, Cell.num 6, Cell.num 8] = 1
    ∧ (∃ res2, calculate_correlation_matrix
          [("x", [Cell.num 1, Cell.num 2, Cell.num 3, Cell.num 4]),
           ("y", [Cell.num 2, Cell.num 4, Cell.num 6, Cell.num 8])] "pearson"
          = .ok res2
        ∧ ({ column1 := "x", column2 := "y", correlation := 1,
             strength := "strong positive" } : StrongPair)
          ∈ res2.strong_correlations) := by
  have hpv : pairwiseVals [Cell.num 1, Cell.num 2, Cell.num 3, Cell.num 4]
      [Cell.num 2, Cell.num 4, Cell.num 6, Cell.num 8]
      = [((1:ℚ), (2:ℚ)), (2, 4), (3, 6), (4, 8)] := rfl
  have hrep : corrRep "pearson" [((1:ℚ), (2:ℚ)), (2, 4), (3, 6), (4, 8)]
      = (10, 100) := by
    unfold corrRep
    rw [if_pos rfl]
    rw [show ([((1:ℚ), (2:ℚ)), (2, 4), (3, 6), (4, 8)].map Prod.fst)
        = [1, 2, 3, 4] from rfl,
      show ([((1:ℚ), (2:ℚ)), (2, 4), (3, 6), (4, 8)].map Prod.snd)
        = [2, 4, 6, 8] from rfl, Prod.mk.injEq]
    constructor
    · norm_num [corrNum, devList, sprod, meanQ]
    · norm_num [corrNum, devList, sprod, meanQ]
  have hcv : corrVal "pearson" [Cell.num 1, Cell.num 2, Cell.num 3, Cell.num 4]
      [Cell.num 2, Cell.num 4, Cell.num 6, Cell.num 8] = 1 := by
    unfold corrVal
    rw [hpv, hrep]
    show (((10:ℚ)) : ℝ) / Real.sqrt (((100:ℚ) : ℚ) : ℝ) = 1
    rw [show (((100:ℚ) : ℚ) : ℝ) = (10:ℝ) ^ 2 by norm_num,
      Real.sqrt_sq (by norm_num)]
    norm_num
  have hsc : strongCond "pearson" [Cell.num 1, Cell.num 2, Cell.num 3, Cell.num 4]
      [Cell.num 2, Cell.num 4, Cell.num 6, Cell.num 8] = true := by
    unfold strongCond
    rw [hpv, hrep, decide_eq_true_eq]
    norm_num
  refine ⟨?_, hcv, ?_⟩
  · -- the general list characterization
    unfold calculate_correlation_matrix at hok
    by_cases hlen : (numericCols df).length < 2
    · simp [hlen] at hok
    · have hmeth : ("pearson":String) = "pearson" ∨ ("pearson":String) = "spearman"
          ∨ ("pearson":String) = "kendall" := Or.inl rfl
      rw [if_neg hlen, if_pos hmeth] at hok
      simp only [Except.ok.injEq] at hok
      subst hok
      exact strongPairs_eq_spec (numericCols df)
  · -- the scenario
    refine ⟨_, rfl, ?_⟩
    show ({ column1 := "x", column2 := "y", correlation := 1,
            strength := "strong positive" } : StrongPair)
        ∈ strongPairs "pearson" (numericCols
          [("x", [Cell.num 1, Cell.num 2, Cell.num 3, Cell.num 4]),
           ("y", [Cell.num 2, Cell.num 4, Cell.num 6, Cell.num 8])])
    apply List.mem_filterMap.mpr
    refine ⟨(("x", [Cell.num 1, Cell.num 2, Cell.num 3, Cell.num 4]),
             ("y", [Cell.num 2, Cell.num 4, Cell.num 6, Cell.num 8])),
      List.Mem.head _, ?_⟩
    rw [if_pos hsc]
    rw [show (if 0 < (corrRep "pearson" (pairwiseVals
        [Cell.num 1, Cell.num 2, Cell.num 3, Cell.num 4]
        [Cell.num 2, Cell.num 4, Cell.num 6, Cell.num 8])).1
        then "strong positive" else "strong negative") = "strong positive" by
      rw [hpv, hrep]
      norm_num]
    rw [hcv]

/-- C6 witness: the scenario table itself. -/
theorem strong_correlations_exact_witness :
    ∃ res, calculate_correlation_matrix
        [("x", [Cell.num 1, Cell.num 2, Cell.num 3, Cell.num 4]),
         ("y", [Cell.num 2, Cell.num 4, Cell.num 6, Cell.num 8])] "pearson"
        = .ok res
      ∧ res.strong_correlations = specStrongList (numericCols
          [("x", [Cell.num 1, Cell.num 2, Cell.num 3, Cell.num 4]),
           ("y", [Cell.num 2, Cell.num 4, Cell.num 6, Cell.num 8])])
      ∧ corrVal "pearson" [Cell.num 1, Cell.num 2, Cell.num 3, Cell.num 4]
          [Cell.num 2, Cell.num 4, Cell.num 6, Cell.num 8] = 1 :=
  ⟨_, rfl,
    (strong_correlations_exact
      [("x", [Cell.num 1, Cell.num 2, Cell.num 3, Cell.num 4]),
       ("y", [Cell.num 2, Cell.num 4, Cell.num 6, Cell.num 8])] _ rfl).1,
    (strong_correlations_exact
      [("x", [Cell.num 1, Cell.num 2, Cell.num 3, Cell.num 4]),
       ("y", [Cell.num 2, Cell.num 4, Cell.num 6, Cell.num 8])] _ rfl).2.1⟩

end DataLens
